import Mathlib

/-!
Verification development for the retrieval-augmented QA pipeline
(backend: qa_core / qa_utils / qutils / intents / context / embedding /
response).  Python strings are modelled as `List Char`; Python floats
(similarity scores) as `ℚ`; the external collaborators (embedding model,
vector store, LLM stream, entertainment lookup) as components of an `Env`
record, per the spec's external-interface boundary.  Each definition is a
direct translation of the corresponding Python function.
-/

abbrev Str := List Char

/-- Python `\s` / `str.strip()` whitespace (ASCII range). -/
def isPySpace (c : Char) : Bool :=
  c = ' ' || c = '\t' || c = '\n' || c = '\r' || c = '\x0b' || c = '\x0c'

/-- Python regex `\w` word character (ASCII range): alphanumeric or underscore. -/
def isWordChar (c : Char) : Bool := c.isAlphanum || c = '_'

/-- Characters kept by `re.split(r"[^a-z0-9]+", ...)` on lowercased text. -/
def isLowerDigit (c : Char) : Bool := ('a' ≤ c && c ≤ 'z') || ('0' ≤ c && c ≤ '9')

/-- Python `str.lower()` (ASCII behaviour suffices for the pipeline's inputs). -/
def pyLower (s : Str) : Str := s.map Char.toLower

/-- Python `str.lstrip()`. -/
def pyLstrip (s : Str) : Str := s.dropWhile isPySpace

/-- Python `str.rstrip()`. -/
def pyRstrip (s : Str) : Str := (s.reverse.dropWhile isPySpace).reverse

/-- Python `str.strip()`. -/
def pyStrip (s : Str) : Str := pyRstrip (pyLstrip s)

/-- Python `pat in s` (substring containment). -/
def containsSub : Str → Str → Bool
  | [], pat => pat.isEmpty
  | s@(_ :: rest), pat => pat.isPrefixOf s || containsSub rest pat

/-- Last `n` characters, Python `s[-n:]`. -/
def takeLastN (n : Nat) (s : Str) : Str := s.drop (s.length - n)

/-- Splitter dropping empty fragments (used for `str.split()` and
`re.split` with a character-class separator followed by truthiness filter). -/
def splitTokAux (p : Char → Bool) : Str → Str → List Str → List Str
  | [], cur, acc => (if cur.isEmpty then acc else cur.reverse :: acc)
  | c :: rest, cur, acc =>
    if p c then splitTokAux p rest [] (if cur.isEmpty then acc else cur.reverse :: acc)
    else splitTokAux p rest (c :: cur) acc

/-- Split on separator characters, dropping empty pieces. -/
def splitDrop (p : Char → Bool) (s : Str) : List Str := (splitTokAux p s [] []).reverse

/-- Python `str.split()` (whitespace words). -/
def pySplitWs (s : Str) : List Str := splitDrop isPySpace s

/-- Python `[t for t in re.split(r"[^a-z0-9]+", s) if t]`. -/
def splitLowerAlnum (s : Str) : List Str := splitDrop (fun c => !(isLowerDigit c)) s

/-- Strict lexicographic comparison on code points: Python `s < t` for `str`. -/
def strLt : Str → Str → Bool
  | [], [] => false
  | [], _ :: _ => true
  | _ :: _, [] => false
  | a :: as, b :: bs => a.toNat < b.toNat || (a = b && strLt as bs)

/-- Stable ascending insertion used to model Python `sorted` on strings. -/
def insLe (x : Str) : List Str → List Str
  | [] => [x]
  | y :: ys => if strLt x y then x :: y :: ys else y :: insLe x ys

/-- Python `sorted(list_of_str)`. -/
def sortStrs (l : List Str) : List Str := l.foldr insLe []

/-- Association-list lookup (Python `dict.get`, insertion-ordered dicts). -/
def alookup {α : Type} (m : List (Str × α)) (k : Str) : Option α :=
  match m with
  | [] => none
  | (k', v) :: rest => if k' = k then some v else alookup rest k

/-- Python `x or y` for optional strings (`None` and `""` are falsy). -/
def pyOrS (a : Option Str) (d : Str) : Str :=
  match a with
  | some s => if s.isEmpty then d else s
  | none => d

/-- Whole-word / whole-phrase search: `re.search(rf"\b{re.escape(w)}\b", s)`
for a pattern beginning and ending with word characters.  Scans every
position keeping track of whether the previous character is a word
character. -/
def hasWordAux (w : Str) : Str → Bool → Bool
  | [], _ => false
  | s@(c :: rest), prevWord =>
    (!prevWord && w.isPrefixOf s &&
      !(match s.drop w.length with
        | c' :: _ => isWordChar c'
        | [] => false)) ||
    hasWordAux w rest (isWordChar c)

/-- `_has_word` / `_has_phrase` from intents.py. -/
def hasWordB (s w : Str) : Bool := hasWordAux w s false

/-! ### intents.py -/

/-- `is_greeting` (intents.py): whole-word "hi"/"hello"/"hey" or whole-phrase
"good morning"/"good evening"/"good afternoon" in the lowercased stripped input. -/
def is_greeting (q : Str) : Bool :=
  let ql := pyStrip (pyLower q)
  (["hi", "hello", "hey"].map String.toList).any (fun w => hasWordB ql w) ||
  (["good morning", "good evening", "good afternoon"].map String.toList).any
    (fun p => hasWordB ql p)

/-- `is_help` (intents.py). -/
def is_help (q : Str) : Bool :=
  let ql := pyStrip (pyLower q)
  hasWordB ql ("help".toList) ||
  (["?", "how to", "what can you do", "i need help"].map String.toList).any
    (fun p => ql = p)

/-- `is_smalltalk` (intents.py). -/
def is_smalltalk (q : Str) : Bool :=
  let ql := pyStrip (pyLower q)
  (["how are you", "are you there", "thank you", "thanks",
    "what's up", "whats up"].map String.toList).any (fun p => hasWordB ql p) ||
  (["ok", "okay", "yo", "sup"].map String.toList).any (fun w => hasWordB ql w)

/-- The "about"-style phrasings excluded from definition questions. -/
def aboutExclusions : List Str :=
  ["what is it about", "what is this about", "what is the url about",
   "what is this document about", "what is the document about"].map String.toList

/-- `is_definition_question` (intents.py). -/
def is_definition_question (q : Str) : Bool :=
  let ql := pyStrip (pyLower q)
  if ("define ".toList).isPrefixOf ql then true
  else if ("what is ".toList).isPrefixOf ql then
    !(aboutExclusions.any (fun p => p.isPrefixOf ql || ql = p))
  else false

/-- `is_about_question` (intents.py): the input equals one of the overview
phrasings or starts with one followed by a space. -/
def is_about_question (q : Str) : Bool :=
  let ql := pyStrip (pyLower q)
  (["what is it about", "what is this about", "what is the url about",
    "what is this document about", "what is the document about",
    "what is this file about", "what is it", "give me an overview",
    "overview", "summarize", "summary"].map String.toList).any
    (fun p => ql = p || (p ++ [' ']).isPrefixOf ql)

/-! ### context.py -/

/-- One stored conversation turn (context.py keeps dicts with question,
context and a comma-joined sources string). -/
structure Turn where
  question : Str
  context : Str
  sources : Str
deriving DecidableEq, Repr

/-- `add_to_context` (context.py): appends one turn; there is no bound or
eviction in the source. -/
def add_to_context (ctx : List Turn) (question : Str) (context : Str)
    (sources : List Str) : List Turn :=
  ctx ++ [⟨question, context, List.intercalate (",".toList) sources⟩]

/-- `get_recent_context` (context.py): formats the last two turns. -/
def get_recent_context (ctx : List Turn) : Str :=
  List.intercalate ("\n".toList)
    ((ctx.drop (ctx.length - 2)).map (fun t =>
      ("Previous Q: ".toList) ++ t.question ++ ("\nContext: ".toList) ++
        t.context.take 200 ++ ("...".toList)))

/-- `clear_conversation_context` (context.py). -/
def clear_conversation_context : List Turn := []

/-- `has_recent_context` (context.py). -/
def hasRecentContext (ctx : List Turn) : Bool := !ctx.isEmpty

/-! ### response.py : split_compound -/

/-- `split_compound` (response.py): split on `?`, strip the parts, keep the
ones with at least three whitespace-separated words, re-append `?`; if none
qualifies return the original question alone. -/
def split_compound (question : Str) : List Str :=
  let parts := (question.splitOn '?').map pyStrip
  let subs := parts.filter (fun p => 3 ≤ (pySplitWs p).length)
  if subs.isEmpty then [question] else subs.map (fun s => s ++ ['?'])

/-! ### qutils.py -/

/-- A retrieval hit: the payload fields the pipeline reads, plus the
similarity score (modelled as `ℚ`) and `str(page)` when a page was recorded. -/
structure Hit where
  text : Str
  filename : Option Str
  source : Option Str
  score : ℚ
  page : Option Str
  sourceType : Option Str
  url : Option Str
  pageUrl : Option Str
  sourceUrl : Option Str
deriving DecidableEq, Repr

/-- `it.get("filename") or it.get("source") or "Document"` as used by
qa_core source grouping and by qutils.pages_by_source. -/
def hitName (h : Hit) : Str := pyOrS h.filename (pyOrS h.source ("Document".toList))

/-- Add an element to a Python `set` modelled as a duplicate-free list. -/
def setAdd (l : List Str) (x : Str) : List Str := if x ∈ l then l else l ++ [x]

/-- `out.setdefault(src, set()).add(str(pg))` over an insertion-ordered map. -/
def pbsAdd : List (Str × List Str) → Str → Str → List (Str × List Str)
  | [], k, v => [(k, [v])]
  | (k', vs) :: rest, k, v =>
    if k' = k then (k', setAdd vs v) :: rest else (k', vs) :: pbsAdd rest k v

/-- `pages_by_source` (qutils.py): map each source to the set of page
strings recorded on its hits. -/
def pages_by_source (hits : List Hit) : List (Str × List Str) :=
  hits.foldl (fun m it =>
    match it.page with
    | none => m
    | some pg => pbsAdd m (hitName it) pg) []

/-- `os.path.basename` (posix): the part after the last `/`. -/
def pyBasename (s : Str) : Str := (s.reverse.takeWhile (fun c => c ≠ '/')).reverse

/-- The page list used for one source entry:
`sorted(pmap.get(s, pmap.get(base, set())))`. -/
def pagesFor (pmap : List (Str × List Str)) (s : Str) : List Str :=
  sortStrs ((alookup pmap s).getD ((alookup pmap (pyBasename s)).getD []))

/-- `format_sources_with_pages` (qutils.py). -/
def format_sources_with_pages (sources : List Str) (pmap : List (Str × List Str)) : Str :=
  List.intercalate (", ".toList)
    (sources.map (fun s =>
      let base := pyBasename s
      let pgs := pagesFor pmap s
      if pgs.isEmpty then base
      else base ++ (" (p. ".toList) ++ List.intercalate (", ".toList) pgs ++ (")".toList)))

/-! ### embedding.py : get_embedding -/

/-- The 384-dimension zero vector `np.zeros(384)`. -/
def zeros384 : List ℚ := List.replicate 384 0

/-- `get_embedding` (embedding.py), parameterised by the md5 key function and
the encoder (`model.encode`, an external collaborator that may raise, modelled
as `Except`).  Returns the vector together with the updated cache; the
function is total, so it never raises.  The cache is an insertion-ordered
association list; when it exceeds 1000 entries the first 100 keys are
evicted, as in the source. -/
def get_embedding (hash : Str → Str) (enc : Str → Except Unit (List ℚ))
    (cache : List (Str × List ℚ)) (text : Str) (useCache : Bool) :
    List ℚ × List (Str × List ℚ) :=
  if text.isEmpty || (pyStrip text).isEmpty then (zeros384, cache)
  else
    let key := hash text
    match if useCache then alookup cache key else none with
    | some v => (v, cache)
    | none =>
      match enc (pyStrip text) with
      | Except.ok emb =>
        if useCache then
          let cache' := cache ++ [(key, emb)]
          (emb, if 1000 < cache'.length then cache'.drop 100 else cache')
        else (emb, cache)
      | Except.error _ => (zeros384, cache)

/-! ### qa_utils.py : extract_name_phrase -/

/-- Matcher for `re.match(r"\s*(who\s+is|who's)\s+(.+)$", tl)`: optional
leading whitespace, then `who` + whitespace + `is` or `who's`, then at least
one whitespace character, then a non-empty remainder that `.+` can cover
(so it contains no newline, as `$` only matches at the end of the stripped
string).  Returns group 2. -/
def whoIsMatch (tl : Str) : Option Str :=
  let s := tl.dropWhile isPySpace
  let afterKw : Str → Option Str := fun a =>
    let ws := a.takeWhile isPySpace
    let rest := a.dropWhile isPySpace
    if !ws.isEmpty && !rest.isEmpty && !(rest.contains '\n') then some rest else none
  if ("who".toList).isPrefixOf s then
    let a := s.drop 3
    let ws1 := a.takeWhile isPySpace
    let b := a.dropWhile isPySpace
    if !ws1.isEmpty && ("is".toList).isPrefixOf b then afterKw (b.drop 2)
    else if ("'s".toList).isPrefixOf a then afterKw (a.drop 2)
    else none
  else none

/-- `extract_name_phrase` (qa_utils.py). -/
def extract_name_phrase (text : Str) : Str :=
  let tl := pyStrip (pyLower text)
  match whoIsMatch tl with
  | some g => pyStrip g
  | none =>
    let parts := pySplitWs tl
    if 2 ≤ parts.length && parts.length ≤ 4 then
      List.intercalate (" ".toList) parts
    else []

/-! ### qa_core.py : smalltalk interception (lines 36-47) -/

/-- `re.search(r"\b(ok|okay|thanks|thank you)\b.+", ql)`: some alternative
occurs with a word boundary on each side and is followed by at least one
character matchable by `.` (any character except a newline; each alternative
ends in a word character, so the boundary also requires that following
character to be a non-word character). -/
def smalltalkTrailAux : Str → Bool → Bool
  | [], _ => false
  | s@(c :: rest), prevWord =>
    (!prevWord &&
      (["ok", "okay", "thanks", "thank you"].map String.toList).any (fun w =>
        w.isPrefixOf s &&
        (match s.drop w.length with
         | c' :: _ => !isWordChar c' && c' ≠ '\n'
         | [] => false))) ||
    smalltalkTrailAux rest (isWordChar c)

/-- The guard on qa_core line 40 that forces smalltalk to fall through. -/
def smalltalkFallThrough (ql : Str) : Bool :=
  containsSub ql ("?".toList) || smalltalkTrailAux ql false

/-- `re.fullmatch(r"(alt1|alt2|...)[.! ]*", ql)`. -/
def fullmatchPad (alts : List Str) (ql : Str) : Bool :=
  alts.any (fun a => a.isPrefixOf ql && (ql.drop a.length).all (fun c => c = '.' || c = '!' || c = ' '))

/-- Canned smalltalk replies (qa_core lines 43, 45, 47; the byte sequences
match the source file). -/
def thanksReply : Str :=
  "You're welcome! If you have more questions about your documents or web sources, just ask. ðŸ˜Š".toList

def okReply : Str :=
  "Got it. When you're ready, ask me about your uploaded PDFs or ingested web pages!".toList

def hiReply : Str :=
  "I'm here and happy to help! Ask about your uploaded PDFs or ingested web pages. ðŸ˜Š".toList

/-- qa_core lines 36-47: the smalltalk block.  Returns the canned reply when
one of the `elif` branches yields, `none` when the block falls through to
normal answering (including the `pass` branch). -/
def smalltalkIntercept (q : Str) : Option Str :=
  if is_smalltalk q then
    let ql := pyStrip (pyLower q)
    if smalltalkFallThrough ql then none
    else if fullmatchPad (["thank you", "thanks"].map String.toList) ql then some thanksReply
    else if fullmatchPad (["ok", "okay"].map String.toList) ql then some okReply
    else if fullmatchPad (["hi", "hello", "hey"].map String.toList) ql then some hiReply
    else none
  else none

/-! ### qa_core.py : multi-part heuristic (line 137) -/

/-- First alternative `\b(who|what|which|where|when|how)\b.*[,;]`: after a
whole question word, a `,` or `;` is reachable without crossing a newline. -/
def mpAlt1Aux : Str → Bool → Bool
  | [], _ => false
  | s@(c :: rest), prevWord =>
    (!prevWord &&
      (["who", "what", "which", "where", "when", "how"].map String.toList).any (fun w =>
        w.isPrefixOf s &&
        (match s.drop w.length with
         | c' :: _ => !isWordChar c'
         | [] => true) &&
        ((s.drop w.length).takeWhile (fun c' => c' ≠ '\n')).any (fun c' => c' = ',' || c' = ';'))) ||
    mpAlt1Aux rest (isWordChar c)

/-- Scan for `\bwhat\s+` with no newline before its start (`.*` cannot cross
a newline; the `\s+` after `what` may).  The boolean argument tracks whether
the previous character is a word character. -/
def whatScan : Str → Bool → Bool
  | [], _ => false
  | c :: rest, prevWord =>
    if c = '\n' then false
    else
      (!prevWord && ("what".toList).isPrefixOf (c :: rest) &&
        (match (c :: rest).drop 4 with
         | c' :: _ => isPySpace c'
         | [] => false)) ||
      whatScan rest (isWordChar c)

/-- Scan for `\band\b` with no newline before its start. -/
def andScan : Str → Bool → Bool
  | [], _ => false
  | c :: rest, prevWord =>
    if c = '\n' then false
    else
      (!prevWord && ("and".toList).isPrefixOf (c :: rest) &&
        (match (c :: rest).drop 3 with
         | c' :: _ => !isWordChar c'
         | [] => true)) ||
      andScan rest (isWordChar c)

/-- Match `word1\s+word2` at the start of `s` with a word boundary after
`word2`, returning the remainder. -/
def matchTwoWords (w1 w2 : Str) (s : Str) : Option Str :=
  if w1.isPrefixOf s then
    let a := s.drop w1.length
    let ws := a.takeWhile isPySpace
    let b := a.dropWhile isPySpace
    if !ws.isEmpty && w2.isPrefixOf b &&
        (match b.drop w2.length with
         | c' :: _ => !isWordChar c'
         | [] => true) then
      some (b.drop w2.length)
    else none
  else none

/-- Second alternative `\bwho\s+is\b.*\bwhat\s+`. -/
def mpAlt2Aux : Str → Bool → Bool
  | [], _ => false
  | s@(c :: rest), prevWord =>
    (!prevWord &&
      (match matchTwoWords ("who".toList) ("is".toList) s with
       | some r => whatScan r true
       | none => false)) ||
    mpAlt2Aux rest (isWordChar c)

/-- Third alternative `\bwhat\s+is\b.*\band\b`. -/
def mpAlt3Aux : Str → Bool → Bool
  | [], _ => false
  | s@(c :: rest), prevWord =>
    (!prevWord &&
      (match matchTwoWords ("what".toList) ("is".toList) s with
       | some r => andScan r true
       | none => false)) ||
    mpAlt3Aux rest (isWordChar c)

/-- qa_core line 137: the compound/multi-part regex heuristic. -/
def multiPartHeuristic (ql : Str) : Bool :=
  mpAlt1Aux ql false || mpAlt2Aux ql false || mpAlt3Aux ql false

/-! ### qa_utils.py : smart_trim -/

/-- The abbreviation set `_ABBREV` from qa_utils.py. -/
def abbrevSet : List Str :=
  ["mr.", "mrs.", "ms.", "dr.", "prof.", "sr.", "jr.", "vs.", "etc.",
   "e.g.", "i.e.", "inc.", "ltd.", "co.", "dept.", "univ."].map String.toList

/-- `_is_abbrev_before` (qa_utils.py): the lowered slice
`text[max(0, pos-8) : pos+1]` ends with a known abbreviation. -/
def isAbbrevBefore (text : Str) (pos : Nat) : Bool :=
  let look := pyLower ((text.take (pos + 1)).drop (pos - 8))
  abbrevSet.any (fun a => a.isSuffixOf look)

/-- Python `s.rfind(pat)` for non-empty `pat`: index of the last occurrence. -/
def rfindSubAux (pat : Str) : Str → Nat → Option Nat → Option Nat
  | [], _, best => best
  | s@(_ :: rest), i, best =>
    rfindSubAux pat rest (i + 1) (if pat.isPrefixOf s then some i else best)

/-- Python `s.rfind(pat)` (as `Option Nat`; `none` models `-1`). -/
def rfindSub (s pat : Str) : Option Nat := rfindSubAux pat s 0 none

/-- The while-loop `while candidate and candidate[-1] in ":,(":
candidate = candidate[:-1].rstrip()` shared by smart_trim and the final
punctuation fixup.  Fuel-driven; `s.length` steps always suffice because
each iteration removes at least one character. -/
def dropTrailJunkF : Nat → Str → Str
  | 0, s => s
  | fuel + 1, s =>
    match s.getLast? with
    | some c =>
      if c = ':' || c = ',' || c = '(' then dropTrailJunkF fuel (pyRstrip s.dropLast)
      else s
    | none => s

/-- Wrapper supplying sufficient fuel. -/
def dropTrailJunk (s : Str) : Str := dropTrailJunkF s.length s

/-- One iteration of the `for punct in [". ", "! ", "? "]` loop body:
`none` models `continue`. -/
def tryPunct (snippet tail : Str) (punct : Str) : Option Str :=
  match rfindSub tail punct with
  | none => none
  | some idx =>
    if punct.head? = some '.' && isAbbrevBefore tail idx then none
    else some (pyRstrip (snippet.take (snippet.length - tail.length + idx + 1)))

/-- First successful element. -/
def firstSome {α : Type} : List (Option α) → Option α
  | [] => none
  | some a :: _ => some a
  | none :: rest => firstSome rest

/-- The space-based fallback and final fallback of `smart_trim`. -/
def smartTrimSpaceFallback (snippet : Str) (limit : Nat) : Str :=
  match rfindSub snippet (" ".toList) with
  | some sp =>
    if (3 : ℚ) / 5 * limit < (sp : ℚ) then dropTrailJunk (pyRstrip (snippet.take sp))
    else dropTrailJunk (pyRstrip snippet)
  | none => dropTrailJunk (pyRstrip snippet)

/-- `smart_trim` (qa_utils.py). -/
def smart_trim (t : Str) (limit : Nat) : Str :=
  if t.length ≤ limit then t
  else
    let snippet := t.take limit
    let tail := takeLastN 220 snippet
    match firstSome (([". ", "! ", "? "].map String.toList).map (tryPunct snippet tail)) with
    | some r => r
    | none =>
      match rfindSub snippet ("\n".toList) with
      | some nl =>
        if (3 : ℚ) / 5 * limit < (nl : ℚ) then dropTrailJunk (pyRstrip (snippet.take nl))
        else smartTrimSpaceFallback snippet limit
      | none => smartTrimSpaceFallback snippet limit

/-! ### qa_utils.py : tidy_text -/

/-- Body-and-closer part of the greedy `m{1,2}([^m]+)m{1,2}` matcher, applied
after the opener has been consumed: the group is the non-empty run of
non-`m` characters, the closer is one or two `m`s. -/
def emphTryCore (m : Char) (afterOp : Str) : Option (Str × Str) :=
  match afterOp.dropWhile (fun x => x ≠ m) with
  | [] => none
  | _ :: s2 =>
    if (afterOp.takeWhile (fun x => x ≠ m)).isEmpty then none
    else some (afterOp.takeWhile (fun x => x ≠ m),
               if s2.head? = some m then s2.tail else s2)

/-- Attempt to match `m{1,2}([^m]+)m{1,2}` at the start of `s` (greedy, with
the regex engine's backtracking over the opener width), returning the group
and the remainder after the closer. -/
def emphTry (m : Char) (s : Str) : Option (Str × Str) :=
  match s with
  | [] => none
  | c :: s1 =>
    if c ≠ m then none
    else emphTryCore m (if s1.head? = some m then s1.tail else s1)

/-- `re.sub(r"\*{1,2}([^*]+)\*{1,2}", r"\1", t)` (and the `_` analogue),
fuel-driven left-to-right replacement. -/
def emphSubF (m : Char) : Nat → Str → Str
  | 0, s => s
  | _ + 1, [] => []
  | fuel + 1, s@(c :: rest) =>
    if c = m then
      match emphTry m s with
      | some (body, after) => body ++ emphSubF m fuel after
      | none => c :: emphSubF m fuel rest
    else c :: emphSubF m fuel rest

/-- Wrapper with sufficient fuel (each step consumes at least one character). -/
def emphSub (m : Char) (s : Str) : Str := emphSubF m s.length s

/-- The punctuation class `[,.;:!?]`. -/
def isTidyPunct (c : Char) : Bool :=
  c = ',' || c = '.' || c = ';' || c = ':' || c = '!' || c = '?'

/-- `re.sub(r"\s+([,.;:!?])", r"\1", t)`: a maximal whitespace run directly
followed by a punctuation character is deleted (keeping the punctuation). -/
def wsPunctF : Nat → Str → Str
  | 0, s => s
  | _ + 1, [] => []
  | fuel + 1, s@(c :: rest) =>
    if isPySpace c then
      match s.dropWhile isPySpace with
      | p :: after2 =>
        if isTidyPunct p then p :: wsPunctF fuel after2
        else s.takeWhile isPySpace ++ wsPunctF fuel (p :: after2)
      | [] => s.takeWhile isPySpace
    else c :: wsPunctF fuel rest

/-- Wrapper with sufficient fuel. -/
def wsPunct (s : Str) : Str := wsPunctF s.length s

/-- `re.sub(r"\(\s+\)", "()", t)`. -/
def parenFixF : Nat → Str → Str
  | 0, s => s
  | _ + 1, [] => []
  | fuel + 1, c :: rest =>
    if c = '(' then
      if !(rest.takeWhile isPySpace).isEmpty &&
          (rest.dropWhile isPySpace).head? = some ')' then
        '(' :: ')' :: parenFixF fuel (rest.dropWhile isPySpace).tail
      else c :: parenFixF fuel rest
    else c :: parenFixF fuel rest

/-- Wrapper with sufficient fuel. -/
def parenFix (s : Str) : Str := parenFixF s.length s

/-- `re.sub(r"\s{2,}", " ", t)`: every maximal whitespace run of length at
least two becomes a single space; single whitespace characters are kept
verbatim.  Fuel-driven (the string length is always sufficient fuel, since
every step shortens the string by one). -/
def collapseWsF : Nat → Str → Str
  | 0, s => s
  | _ + 1, [] => []
  | _ + 1, [c] => [c]
  | fuel + 1, a :: b :: rest =>
    if isPySpace a && isPySpace b then collapseWsF fuel (' ' :: rest)
    else a :: collapseWsF fuel (b :: rest)

/-- Wrapper with sufficient fuel. -/
def collapseWs (s : Str) : Str := collapseWsF s.length s

/-- `re.sub(r"\n{3,}", "\n\n", t)`: runs of three or more newlines become
exactly two.  Fuel-driven like `collapseWsF`. -/
def nl3SubF : Nat → Str → Str
  | 0, s => s
  | _ + 1, [] => []
  | _ + 1, [a] => [a]
  | _ + 1, [a, b] => [a, b]
  | fuel + 1, a :: b :: c :: rest =>
    if a = '\n' && b = '\n' && c = '\n' then nl3SubF fuel ('\n' :: '\n' :: rest)
    else a :: nl3SubF fuel (b :: c :: rest)

/-- Wrapper with sufficient fuel. -/
def nl3Sub (s : Str) : Str := nl3SubF s.length s

/-- `tidy_text` (qa_utils.py). -/
def tidy_text (t : Str) : Str :=
  pyStrip (nl3Sub (collapseWs (parenFix (wsPunct (emphSub '_' (emphSub '*' t))))))

/-! ### qa_core.py : terminal-punctuation fixup (lines 311-315 / 94-97) -/

/-- The fixup applied after `tidy_text`: when the text is non-empty and does
not already end in `.`/`!`/`?`, strip trailing `:`/`,`/`(` (with interleaved
rstrip) and append a period. -/
def fixToTerminal (s : Str) : Str :=
  match s.getLast? with
  | none => s
  | some c =>
    if c = '.' || c = '!' || c = '?' then s
    else pyRstrip (dropTrailJunk s) ++ ['.']

/-- qa_core line 309-315: the complete finalisation of an accumulated
answer (`smart_trim(accum.strip(), max_chars)`, `tidy_text`, fixup). -/
def finalizeAnswer (accum : Str) (maxChars : Nat) : Str :=
  fixToTerminal (tidy_text (smart_trim (pyStrip accum) maxChars))

/-! ### qa_utils.py : clean_model_chunk -/

/-- Case-insensitive literal prefix test (for `(?i)` patterns). -/
def prefixCI (kw : Str) (s : Str) : Bool := kw.isPrefixOf (pyLower (s.take kw.length))

/-- Generic engine for `re.sub` with a `(?m)^`-anchored pattern: at each
line-start position the matcher either returns
(replacement, remainder, whether the remainder begins at a line start) or
fails, in which case one character is copied.  Fuel-driven; every successful
match consumes at least one character, so `length + 1` fuel suffices. -/
def subAnchored (try' : Str → Option (Str × Str × Bool)) : Nat → Bool → Str → Str
  | 0, _, s => s
  | _ + 1, _, [] => []
  | fuel + 1, lineStart, s@(c :: rest) =>
    if lineStart then
      match try' s with
      | some (repl, s', ls') => repl ++ subAnchored try' fuel ls' s'
      | none => c :: subAnchored try' fuel (c = '\n') rest
    else c :: subAnchored try' fuel (c = '\n') rest

/-- Match further keywords each preceded by `\s+`, case-insensitively. -/
def chainWordsCI : List Str → Str → Option Str
  | [], r => some r
  | kw :: kws', r =>
    let ws := r.takeWhile isPySpace
    let r' := r.dropWhile isPySpace
    if !ws.isEmpty && prefixCI kw r' then chainWordsCI kws' (r'.drop kw.length)
    else none

/-- Match `\s*:` then the rest of the line (`.*$`); the remainder starts at
the line's terminating newline (or is empty). -/
def finishHeading (e : Str) : Option (Str × Str × Bool) :=
  match e.dropWhile isPySpace with
  | ':' :: g => some ([], g.dropWhile (fun x => x ≠ '\n'), false)
  | _ => none

/-- After `\s*(\*\*|__)?\s*`, match the given keyword sequence (words joined
by `\s+`) case-insensitively, optionally a trailing `s` (for `sources?`),
then `\s*:` and the rest of the line (`.*$`): used for the
"important reminder:" and "sources:" heading patterns. -/
def tryHeading (kws : List Str) (optS : Bool) (s : Str) : Option (Str × Str × Bool) :=
  let a := s.dropWhile isPySpace
  let b :=
    if ("**".toList).isPrefixOf a then a.drop 2
    else if ("__".toList).isPrefixOf a then a.drop 2
    else a
  let c := b.dropWhile isPySpace
  match kws with
  | [] => none
  | kw0 :: kwRest =>
    if !prefixCI kw0 c then none
    else
      match chainWordsCI kwRest (c.drop kw0.length) with
      | none => none
      | some d =>
        if optS && prefixCI ("s".toList) d then
          match finishHeading (d.drop 1) with
          | some r => some r
          | none => finishHeading d
        else finishHeading d

/-- Matcher for `(?im)^\s*-\s.*\.pdf.*$`. -/
def tryPdfLine (s : Str) : Option (Str × Str × Bool) :=
  let a := s.dropWhile isPySpace
  match a with
  | '-' :: b =>
    match b with
    | w :: c =>
      if isPySpace w then
        let line := c.takeWhile (fun x => x ≠ '\n')
        if containsSub (pyLower line) (".pdf".toList) then
          some ([], c.dropWhile (fun x => x ≠ '\n'), false)
        else none
      else none
    | [] => none
  | _ => none

/-- Match a sequence of case-insensitive words joined by `\s+` at the start
of `s`, returning the remainder. -/
def matchWordsCI : List Str → Str → Option Str
  | [], s => some s
  | [kw], s => if prefixCI kw s then some (s.drop kw.length) else none
  | kw :: kws, s =>
    if prefixCI kw s then
      let r := s.drop kw.length
      let ws := r.takeWhile isPySpace
      let r' := r.dropWhile isPySpace
      if ws.isEmpty then none else matchWordsCI kws r'
    else none

/-- The three disclaimer phrases of qa_utils line 24 (with `\s+` between
words). -/
def disclaimerPhrases : List (List Str) :=
  [["for", "educational", "purposes", "only"],
   ["not", "a", "substitute", "for", "professional", "medical", "advice"],
   ["consult", "with", "a", "qualified", "healthcare", "provider"]].map
    (fun ws => ws.map String.toList)

/-- `re.sub(r"(?i)(phrase1|phrase2|phrase3)[^.]*\.?", "", t)`. -/
def subDisclaimer : Nat → Str → Str
  | 0, s => s
  | _ + 1, [] => []
  | fuel + 1, s@(c :: rest) =>
    match firstSome (disclaimerPhrases.map (fun p => matchWordsCI p s)) with
    | some r =>
      let r2 := r.dropWhile (fun x => x ≠ '.')
      subDisclaimer fuel (match r2 with
        | '.' :: r3 => r3
        | _ => r2)
    | none => c :: subDisclaimer fuel rest

/-- Find the closing delimiter for a lazy group `(.*?)` (no newline may be
crossed), returning the group body and the remainder after the closer. -/
def findCloser (d : Str) : Str → Option (Str × Str)
  | [] => none
  | t@(c :: rest) =>
    if d.isPrefixOf t then some ([], t.drop d.length)
    else if c = '\n' then none
    else
      match findCloser d rest with
      | some (body, after) => some (c :: body, after)
      | none => none

/-- `re.sub(d ++ "(.*?)" ++ d, r"\1", t)` for a literal delimiter `d`
(the four lazy emphasis patterns of clean_model_chunk). -/
def subLazyDelim (d : Str) : Nat → Str → Str
  | 0, s => s
  | _ + 1, [] => []
  | fuel + 1, s@(c :: rest) =>
    if d.isPrefixOf s then
      match findCloser d (s.drop d.length) with
      | some (body, after) => body ++ subLazyDelim d fuel after
      | none => c :: subLazyDelim d fuel rest
    else c :: subLazyDelim d fuel rest

/-- Matcher for the bullet-normalisation patterns `(?m)^\s*[•▪●·]\s+` and
`(?m)^\s*\*\s+` (replacement "- ").  The trailing `\s+` is greedy, so the
remainder begins at a line start exactly when the consumed run ends in a
newline. -/
def tryBullet (bullets : List Char) (s : Str) : Option (Str × Str × Bool) :=
  let a := s.dropWhile isPySpace
  match a with
  | c :: rest =>
    if bullets.contains c then
      let ws := rest.takeWhile isPySpace
      if ws.isEmpty then none
      else some ("- ".toList, rest.dropWhile isPySpace, ws.getLast? = some '\n')
    else none
  | [] => none

/-- `clean_model_chunk` (qa_utils.py): boilerplate removal, markdown
emphasis stripping, bullet normalisation, blank-line collapsing, strip. -/
def clean_model_chunk (t : Str) : Str :=
  let t1 := subAnchored (tryHeading [("important".toList), ("reminder".toList)] false)
    (t.length + 1) true t
  let t2 := subAnchored (tryHeading [("source".toList)] true) (t1.length + 1) true t1
  let t3 := subAnchored tryPdfLine (t2.length + 1) true t2
  let t4 := subDisclaimer (t3.length + 1) t3
  let t5 := subLazyDelim ("**".toList) (t4.length + 1) t4
  let t6 := subLazyDelim ("__".toList) (t5.length + 1) t5
  let t7 := subLazyDelim ("*".toList) (t6.length + 1) t6
  let t8 := subLazyDelim ("_".toList) (t7.length + 1) t7
  let t9 := subAnchored (tryBullet ['•', '▪', '●', '·']) (t8.length + 1) true t8
  let t10 := subAnchored (tryBullet ['*']) (t9.length + 1) true t9
  pyStrip (nl3Sub t10)

/-! ### prompts.py : response strings and prompt builders -/

def greetingResponseS : Str := ("Hello! I can help you explore your uploaded PDFs and ingested web pages. Upload a file or ingest a URL, then ask your question (e.g., 'Summarize page 2' or 'What does this section say about eligibility?').").toList

def helpResponseS : Str := ("Try: 'Summarize the uploaded PDF', 'List the key points', or 'Explain the section on requirements'.").toList

def summaryPre : Str := ("Please provide a concise summary of the document").toList

def summaryPost : Str := (". Focus on:\n- Key topics discussed\n- Important findings or recommendations\n- Notable data points or sections\n\nStructure the response clearly and keep it easy to understand.").toList

def ctxPre : Str := ("You are a helpful document assistant answering using the provided excerpts.\n    \nDocument Information:").toList

def ctxMid1 : Str := ("\n\nQuestion: ").toList

def ctxMid2 : Str := ("\n\nRelevant Document Content:\n").toList

def ctxPost : Str := ("\n\nInstructions for your response (STRICT):\n1. Start with a clear, direct answer (if the question is a definition like \"what is X\", provide a brief definition first)\n2. Include specific details from the provided excerpts, and avoid hallucinating\n3. If the document doesn't contain the answer, say so clearly\n4. Use natural, human language; be warm and professional\n5. Do NOT include any \"Sources:\" text in the body; it will be appended separately by the system\n6. Output MUST be plain text. Do NOT use Markdown formatting (no **bold**, no lists/bullets, no headings).\n7. Preserve names exactly as they appear in the excerpts; do not alter or stylize them.\n8. When enumerating multiple people/items, place each on a new line as plain text.\n9. If the user asks multiple different sub-questions in one message (e.g., about different topics like a disease, a person, and policies), answer each sub-question in its own paragraph, labeled succinctly (e.g., \"Pneumonia:\", \"Sekhar Kammula:\", \"Policies/Publications:\") with a single blank line between paragraphs. Do not use numbered or bulleted lists.\n\nNow, provide a helpful response to the user's question based on the document content above:").toList

def fuPre : Str := ("This is a follow-up question in an ongoing conversation. Consider both the previous context and current question.\n\nCurrent Question: ").toList

def fuMid1 : Str := ("\n\nPrevious Context: ").toList

def fuMid2 : Str := ("\n\nCurrent Document Context: ").toList

def fuPost : Str := ("\n\nPlease provide a response that:\n1. Acknowledges the connection to previous discussion\n2. Builds upon earlier information when relevant\n3. Provides new insights from the current context\n4. Maintains conversation continuity\n5. Uses a warm, conversational tone").toList

def defnPre : Str := ("Provide a concise definition of the concept asked in the question").toList

def defnPost : Str := ("\n\nStrict instructions:\n- Output ONLY a concise definition in 2â€“3 sentences, human-friendly and professional.\n- Do NOT include extra sections unless explicitly asked.\n- Do NOT use bullet points, lists, or headings.\n- If the document does not define it directly, say so and provide the closest relevant explanation from the excerpts.").toList

/-- `get_summary_prompt` (prompts.py). -/
def get_summary_prompt (documentName : Str) : Str :=
  summaryPre ++ (if documentName.isEmpty then [] else (" from ".toList) ++ documentName) ++
    summaryPost

/-- `get_context_prompt` (prompts.py). -/
def get_context_prompt (question context : Str) (sources : List Str) : Str :=
  let sourceInfo :=
    match sources with
    | [] => ([] : Str)
    | s0 :: _ => ("\nSource Document: ".toList) ++ s0
  ctxPre ++ sourceInfo ++ ctxMid1 ++ question ++ ctxMid2 ++ context ++ ctxPost

/-- `get_follow_up_prompt` (prompts.py). -/
def get_follow_up_prompt (question previousContext currentContext : Str) : Str :=
  fuPre ++ question ++ fuMid1 ++ previousContext ++ fuMid2 ++ currentContext ++ fuPost

/-- `get_definition_prompt` (prompts.py). -/
def get_definition_prompt (question : Str) (sources : List Str) : Str :=
  let sourceInfo :=
    match sources with
    | [] => ([] : Str)
    | s0 :: _ => (" based on ".toList) ++ s0
  defnPre ++ sourceInfo ++ (".\nQuestion: ".toList) ++ question ++ defnPost

/-! ### qa_core.py : the answer pipeline -/

def emptyQuestionMsg : Str :=
  ("Please enter a question about your documents or ingested web pages.").toList

def noInfoMsg : Str :=
  ("I couldn't find relevant information in the uploaded documents. Please try rephrasing.").toList

def disambigMsg : Str :=
  ("Please provide the full name (first and last) to avoid confusion among multiple people sharing that surname.").toList

def entApologyMsg : Str :=
  ("I couldn't generate a response just now. Please try again, or rephrase your question.").toList

def entPrefix : Str :=
  ("You are in Entertainment mode. Act as a movies/TV Q&A assistant. Answer directly, clearly, and humanly without restricting to medical topics.").toList

def sourcesHeader : Str := ("\n\nSources:\n").toList

/-- The external collaborators of the pipeline, per the spec's component
boundary: the entertainment lookup, the embedding provider, the two
vector-store searches and the streaming LLM (a pure fragment-sequence
source; call-count claims are checked via the `CallLog`). -/
structure Env where
  hybrid : Str → Option Str
  embed : Str → List ℚ
  searchDoc : List ℚ → Nat → List Hit
  searchWeb : List ℚ → Nat → List Hit
  gen : Str → Str → List Str

/-- How many times each collaborator operation was invoked while answering. -/
structure CallLog where
  embedCalls : Nat
  docSearchCalls : Nat
  webSearchCalls : Nat
  genCalls : Nat
deriving DecidableEq, Repr

/-- The outcome of one `answer_question_stream` call: the yielded chunks, the
conversation context afterwards, and the collaborator call counts. -/
structure AskResult where
  out : List Str
  ctx : List Turn
  log : CallLog
deriving Repr

def zeroLog : CallLog := ⟨0, 0, 0, 0⟩

/-- `retrieval happened, generation may or may not have` log. -/
def retrLog (g : Nat) : CallLog := ⟨1, 1, 1, g⟩

def webRefPhrases : List Str :=
  ["website", "web site", "webpage", "link", "url", "according to the link",
   "on the site", "from the site"].map String.toList

def docRefPhrases : List Str :=
  ["document", "documents", "pdf", "pdfs", "uploaded files", "files"].map String.toList

/-- qa_core lines 148-159: does a hit look web-origin for the phrase-routing
filter. -/
def looksWeb (it : Hit) : Bool :=
  let src := pyOrS it.source (pyOrS it.filename [])
  (("http".toList).isPrefixOf src || containsSub src ("http".toList)) ||
  (let urlVal := pyOrS it.url (pyOrS it.pageUrl (pyOrS it.sourceUrl []))
   pyLower ((it.sourceType).getD []) = ("web".toList) ||
     ("http".toList).isPrefixOf urlVal)

/-- qa_core line 229: the collection kind recorded for a source. -/
def hitIsWebKind (it : Hit) : Bool :=
  let src := pyOrS it.source []
  pyLower ((it.sourceType).getD []) = ("web".toList) ||
  (("http".toList).isPrefixOf src || containsSub src ("http".toList))

/-- Stable descending insertion by score (Python `sorted(..., reverse=True)`
is stable: earlier hits stay before equal-scored later ones). -/
def insHitDesc (x : Hit) : List Hit → List Hit
  | [] => [x]
  | y :: ys => if y.score ≤ x.score then x :: y :: ys else y :: insHitDesc x ys

/-- qa_core line 143: `sorted(combined, key=score, reverse=True)`. -/
def sortByScoreDesc (l : List Hit) : List Hit := l.foldr insHitDesc []

/-- qa_core lines 111-161: embed, query both collections, merge, sort by
score, and apply the phrase-routing web filter (with fallback). -/
def retrieveHits (q : Str) (env : Env) : List Hit :=
  let emb := env.embed q
  let docHits := env.searchDoc emb 20
  let webHits := env.searchWeb emb 20
  let ql := pyLower q
  let preferWeb := webRefPhrases.any (fun p => containsSub ql p)
  let mentionsDocs := docRefPhrases.any (fun p => containsSub ql p)
  let multiPart := multiPartHeuristic ql
  let hits := sortByScoreDesc (docHits ++ webHits)
  if preferWeb && !mentionsDocs && !multiPart then
    let webOnly := hits.filter looksWeb
    if !webOnly.isEmpty then webOnly else hits
  else hits

def commonSurnames : List Str :=
  ["reddy", "kumar", "singh", "patel", "gupta", "rao"].map String.toList

/-- qa_core lines 169-171: a name phrase that is a single common surname. -/
def isSurnameOnly (np : Str) : Bool :=
  match splitLowerAlnum (pyLower np) with
  | [t] => commonSurnames.contains t
  | _ => false

/-- Python `list.index(x, start)` (first index at or after `start`). -/
def idxOfAux (x : Str) : List Str → Nat → Option Nat
  | [], _ => none
  | y :: ys, i => if y = x then some i else idxOfAux x ys (i + 1)

def idxOfFrom (l : List Str) (x : Str) (start : Nat) : Option Nat :=
  (idxOfAux x (l.drop start) 0).map (fun i => i + start)

/-- qa_core lines 175-199: the name-phrase score boost for one hit.
(The source assigns `sc + bump` only when `bump` is non-zero, which is the
same value in every case.) -/
def boostHit (np : Str) (it : Hit) : Hit :=
  let txt := pyLower it.text
  let bump : ℚ :=
    if !np.isEmpty && containsSub txt np then 1/4
    else
      let qToks := (splitLowerAlnum np).filter (fun t => 2 < t.length)
      let b1 : ℚ := if !qToks.isEmpty && qToks.all (fun t => containsSub txt t) then 3/20 else 0
      let b2 : ℚ :=
        if 2 ≤ qToks.length then
          let firstTok := qToks.headD []
          let lastTok := qToks.getLastD []
          let tokens := splitLowerAlnum txt
          match idxOfFrom tokens firstTok 0 with
          | none => 0
          | some fi =>
            match idxOfFrom tokens lastTok fi with
            | none => 0
            | some li => if fi < li && li - fi ≤ 5 then 1/5 else 0
        else 0
      b1 + b2
  { it with score := it.score + bump }

/-- qa_core lines 173-218: boost by name phrase, re-sort, then strict
all-token filter with maximum-overlap fallback. -/
def nameAdjust (np : Str) (hits : List Hit) : List Hit :=
  if np.isEmpty then hits
  else
    let boosted := sortByScoreDesc (hits.map (boostHit np))
    let nameTokens := (splitLowerAlnum np).filter (fun t => 2 < t.length)
    if nameTokens.isEmpty then boosted
    else
      let inTxt := fun (it : Hit) (t : Str) => containsSub (pyLower it.text) t
      let filtered := boosted.filter (fun it => nameTokens.all (inTxt it))
      if !filtered.isEmpty then filtered
      else
        let scored := boosted.map (fun it => ((nameTokens.filter (inTxt it)).length, it))
        let maxCnt : Nat := scored.foldl (fun m p => max m p.1) 0
        if 0 < maxCnt then (scored.filter (fun p => p.1 = maxCnt)).map Prod.snd
        else boosted

/-- Accumulate a score into the insertion-ordered per-source totals. -/
def addScore : List (Str × ℚ) → Str → ℚ → List (Str × ℚ)
  | [], k, v => [(k, v)]
  | (k', v') :: rest, k, v =>
    if k' = k then (k', v' + v) :: rest else (k', v') :: addScore rest k v

/-- qa_core lines 221-225: aggregate score per source. -/
def aggScores (hits : List Hit) : List (Str × ℚ) :=
  hits.foldl (fun m it => addScore m (hitName it) it.score) []

/-- qa_core lines 226-230: first-seen kind per source (`true` = web). -/
def kindsFold (hits : List Hit) : List (Str × Bool) :=
  hits.foldl (fun m it =>
    let s := hitName it
    if (alookup m s).isSome then m else m ++ [(s, hitIsWebKind it)]) []

/-- Python `max(candidates, key=lambda s: score_by_source[s])`: the first
candidate attaining the maximal aggregate score. -/
def argmaxScore (sbs : List (Str × ℚ)) : List Str → Option Str
  | [] => none
  | x :: xs =>
    some (xs.foldl (fun best y =>
      if (alookup sbs best).getD 0 < (alookup sbs y).getD 0 then y else best) x)

/-- Stable descending sort of the (source, aggregate score) pairs. -/
def insPairDesc (x : Str × ℚ) : List (Str × ℚ) → List (Str × ℚ)
  | [] => [x]
  | y :: ys => if y.2 ≤ x.2 then x :: y :: ys else y :: insPairDesc x ys

def sortPairsDesc (l : List (Str × ℚ)) : List (Str × ℚ) := l.foldr insPairDesc []

/-- qa_core lines 242-245: fill the selection from the remaining sources. -/
def fillUp (n : Nat) : List Str → List Str → List Str
  | sel, [] => sel
  | sel, r :: rs => if n ≤ sel.length then sel else fillUp n (sel ++ [r]) rs

/-- qa_core line 234: the web-kind sources in first-seen order. -/
def webSourcesOf (hits : List Hit) : List Str :=
  ((aggScores hits).filter
    (fun p => alookup (kindsFold hits) p.1 = some true)).map Prod.fst

/-- qa_core line 235: the document-kind sources in first-seen order. -/
def docSourcesOf (hits : List Hit) : List Str :=
  ((aggScores hits).filter
    (fun p => alookup (kindsFold hits) p.1 = some false)).map Prod.fst

/-- A source's aggregate score. -/
def scoreOf (hits : List Hit) (s : Str) : ℚ := (alookup (aggScores hits) s).getD 0

/-- qa_core lines 238-241: start the selection with the top document source,
then the top web source when distinct. -/
def seedSelection (topDoc topWeb : Option Str) : List Str :=
  let sel0 :=
    match topDoc with
    | some d => if !d.isEmpty then [d] else []
    | none => []
  match topWeb with
  | some w => if !w.isEmpty && !(sel0.contains w) then sel0 ++ [w] else sel0
  | none => sel0

/-- qa_core lines 220-246: choose the cited sources, preferring the
top-scoring document source and the top-scoring web source, then filling by
global aggregate-score order, capped at 1 (name query) or 3. -/
def selectSources (hits : List Hit) (namePhrase : Str) : List Str :=
  let sbs := aggScores hits
  let topN := if !namePhrase.isEmpty then 1 else 3
  let sel1 := seedSelection (argmaxScore sbs (docSourcesOf hits))
    (argmaxScore sbs (webSourcesOf hits))
  let remaining := ((sortPairsDesc sbs).map Prod.fst).filter (fun s => !(sel1.contains s))
  (fillUp topN sel1 remaining).take topN

/-- qa_core lines 248-252: group the hit texts of the selected sources. -/
def srcMapAdd : List (Str × List Str) → Str → Str → List (Str × List Str)
  | [], k, v => [(k, [v])]
  | (k', vs) :: rest, k, v =>
    if k' = k then (k', vs ++ [v]) :: rest else (k', vs) :: srcMapAdd rest k v

def buildSrcMap (hits : List Hit) (tops : List Str) : List (Str × List Str) :=
  hits.foldl (fun m it =>
    let s := hitName it
    if tops.contains s then srcMapAdd m s it.text else m) []

/-- qa_core line 254: the evidence block handed to the LLM. -/
def buildContext (m : List (Str × List Str)) : Str :=
  List.intercalate ("\n\n".toList)
    (m.map (fun p =>
      ("--- ".toList) ++ p.1 ++ (" ---\n".toList) ++ List.intercalate ("\n\n".toList) p.2))

/-- The `[A-Za-z0-9]+$` run at the end of a string (qa_core line 302). -/
def trailingAlnumRun (s : Str) : Str := (s.reverse.takeWhile Char.isAlphanum).reverse

/-- State of the boundary-aware accumulation loop (qa_core lines 283-307). -/
structure AccState where
  accum : Str
  total : Nat
  halted : Bool

/-- One iteration of the accumulation loop (`break` is modelled by the
`halted` flag, which makes the remaining chunks no-ops). -/
def accumStep (maxChars : Nat) (st : AccState) (chunk : Str) : AccState :=
  if st.halted then st
  else if chunk.isEmpty then st
  else
    let text := clean_model_chunk chunk
    if text.isEmpty then st
    else if maxChars ≤ st.total then { st with halted := true }
    else
      let room := maxChars - st.total
      let tk := text.take (room + 200)
      let needSpace :=
        match st.accum.getLast?, tk.head? with
        | some prev, some first =>
          if prev.isAlphanum && first.isAlphanum then
            let prevTok := trailingAlnumRun (takeLastN 10 st.accum)
            !(prevTok.length = 1 && first.isLower)
          else false
        | _, _ => false
      { accum := (if needSpace then st.accum ++ [' '] else st.accum) ++ tk,
        total := st.total + tk.length, halted := false }

/-- qa_core lines 283-307 (also 77-92): accumulate the cleaned stream
fragments with boundary-safe stitching up to the soft length cap. -/
def accumulate (chunks : List Str) (maxChars : Nat) : Str :=
  (chunks.foldl (accumStep maxChars) ⟨[], 0, false⟩).accum

/-- qa_core lines 259-268: prompt choice by intent.  (Note: the turn is
recorded *before* this choice, so `has_recent_context()` is checked on the
already-extended context.) -/
def choosePrompt (q : Str) (sources : List Str) (context : Str) (ctx2 : List Turn)
    (multiPart : Bool) : Str :=
  if is_about_question q then get_summary_prompt ((sources.headD []))
  else if is_definition_question q && !multiPart then get_definition_prompt q sources
  else if hasRecentContext ctx2 then get_follow_up_prompt q (get_recent_context ctx2) context
  else get_context_prompt q context sources

/-- qa_core lines 273-278: the per-intent length cap. -/
def maxCharsFor (q : Str) (multiPart : Bool) : Nat :=
  if is_definition_question q && !multiPart then 380
  else if is_about_question q then 700
  else 1800

/-- qa_core lines 50-107: entertainment mode (hybrid factual answer, else
LLM prompt with conversation hints). -/
def entPath (q : Str) (env : Env) (ctx : List Turn) : AskResult :=
  let hybridTruthy :=
    match env.hybrid q with
    | some h => !h.isEmpty
    | none => false
  if hybridTruthy then
    let h := (env.hybrid q).getD []
    let hints := if hasRecentContext ctx then get_recent_context ctx else []
    ⟨[tidy_text (smart_trim (pyStrip h) 2000)], add_to_context ctx q hints [], zeroLog⟩
  else
    let hints := if hasRecentContext ctx then get_recent_context ctx else []
    let prompt :=
      if !hints.isEmpty then
        entPrefix ++ ("\n\nConversation hints (for reference only):\n".toList) ++ hints ++
          ("\n\nUser: ".toList) ++ q
      else entPrefix ++ ("\n\nUser: ".toList) ++ q
    let accum := accumulate (env.gen prompt []) 2000
    let ft := fixToTerminal (tidy_text (smart_trim (pyStrip accum) 2000))
    if !ft.isEmpty then ⟨[ft], add_to_context ctx q hints [], ⟨0, 0, 0, 1⟩⟩
    else ⟨[entApologyMsg], ctx, ⟨0, 0, 0, 1⟩⟩

/-- qa_core lines 111-321: the retrieval-grounded main path. -/
def mainPath (q : Str) (env : Env) (ctx : List Turn) : AskResult :=
  let hits1 := retrieveHits q env
  if hits1.isEmpty then ⟨[noInfoMsg], ctx, retrLog 0⟩
  else
    let np := extract_name_phrase q
    if !np.isEmpty && isSurnameOnly np then ⟨[disambigMsg], ctx, retrLog 0⟩
    else
      let hits := nameAdjust np hits1
      let topSources := selectSources hits np
      let srcMap := buildSrcMap hits topSources
      let sources := topSources
      let context := buildContext srcMap
      let ctx2 := add_to_context ctx q context sources
      let multiPart := multiPartHeuristic (pyLower q)
      let prompt := choosePrompt q sources context ctx2 multiPart
      let maxChars := maxCharsFor q multiPart
      let accum := accumulate (env.gen prompt context) maxChars
      let ft := fixToTerminal (tidy_text (smart_trim (pyStrip accum) maxChars))
      if !ft.isEmpty then
        let srcBlock :=
          if !sources.isEmpty then
            sourcesHeader ++ format_sources_with_pages sources
              ((pages_by_source hits).filter (fun p => sources.contains p.1))
          else []
        ⟨[ft ++ srcBlock], ctx2, retrLog 1⟩
      else ⟨[], ctx2, retrLog 1⟩

/-- `answer_question_stream` (qa_core.py): strip, intent gates, then the
entertainment or retrieval path.  The top-level `except` handler (lines
322-324) only converts truly unexpected exceptions into an apology; the
model is total, so it has no counterpart here. -/
def answer_question_stream (question : Str) (entertainmentEnabled : Bool)
    (env : Env) (ctx : List Turn) : AskResult :=
  let q := pyStrip question
  if q.isEmpty then ⟨[emptyQuestionMsg], ctx, zeroLog⟩
  else if is_greeting q then ⟨[greetingResponseS], ctx, zeroLog⟩
  else if is_help q && !(hasRecentContext ctx) then ⟨[helpResponseS], ctx, zeroLog⟩
  else
    match smalltalkIntercept q with
    | some r => ⟨[r], ctx, zeroLog⟩
    | none =>
      if entertainmentEnabled then entPath q env ctx else mainPath q env ctx

/-! ### Derived definitions used by the verification statements -/

/-- No two consecutive whitespace characters (the C10 property). -/
def noTwoAdjWs : Str → Bool
  | a :: b :: rest => !(isPySpace a && isPySpace b) && noTwoAdjWs (b :: rest)
  | _ => true

/-- Spec-side splitter for C7, written independently of `List.splitOn`:
split on `?`, keeping empty fragments, exactly as Python `str.split("?")`. -/
def splitOnQm : Str → List Str
  | [] => [[]]
  | c :: rest =>
    if c = '?' then [] :: splitOnQm rest
    else
      match splitOnQm rest with
      | h :: t => (c :: h) :: t
      | [] => [[c]]

/-- Modelled from the spec's contract sentence for the compound splitter:
"Splits on `?` delimiters, keeps fragments with ≥3 words, re-appends `?`;
if no fragment qualifies, returns the original question as a single-element
list." -/
def splitCompoundSpec (q : Str) : List Str :=
  let kept := ((splitOnQm q).map pyStrip).filter (fun p => 3 ≤ (pySplitWs p).length)
  if kept.isEmpty then [q] else kept.map (fun s => s ++ ['?'])

/-- The concrete hits of the C5 round-trip example: one source `a.pdf` with
recorded pages "3", "1", "1". -/
def c5ExampleHits : List Hit :=
  [⟨("t1".toList), some ("a.pdf".toList), none, 1, some ("3".toList), none, none, none, none⟩,
   ⟨("t2".toList), some ("a.pdf".toList), none, 1, some ("1".toList), none, none, none, none⟩,
   ⟨("t3".toList), some ("a.pdf".toList), none, 1, some ("1".toList), none, none, none, none⟩]

/-- An environment whose vector stores are empty and whose generator yields
nothing (used for concrete counterexample runs). -/
def emptyEnv : Env := ⟨fun _ => none, fun _ => [], fun _ _ => [], fun _ _ => [], fun _ _ => []⟩

/-- An environment with a single document hit mentioning "reddy" (C1). -/
def c1Env : Env :=
  ⟨fun _ => none, fun _ => [],
   fun _ _ => [⟨("mr reddy is here".toList), some ("a.pdf".toList), none, 1, none, none, none, none, none⟩],
   fun _ _ => [], fun _ _ => []⟩

/-- The C3 witness hits: the top five hits by raw score all belong to the
document collection, and a single web hit has a lower score than all of
them. -/
def c3Hits : List Hit :=
  [⟨("d1".toList), some ("d1.pdf".toList), none, 9, none, none, none, none, none⟩,
   ⟨("d2".toList), some ("d2.pdf".toList), none, 8, none, none, none, none, none⟩,
   ⟨("d3".toList), some ("d3.pdf".toList), none, 7, none, none, none, none, none⟩,
   ⟨("d4".toList), some ("d4.pdf".toList), none, 6, none, none, none, none, none⟩,
   ⟨("d5".toList), some ("d5.pdf".toList), none, 5, none, none, none, none, none⟩,
   ⟨("w1".toList), none, some ("http://ex.com".toList), 1, none, some ("web".toList), none, none, none⟩]

/-- An environment for the C9 witness: fixed retrieval results and a
generator that returns the same fragments for every prompt (the "identical
mocked generation results" of the claim). -/
def c9Env : Env :=
  ⟨fun _ => none, fun _ => [],
   fun _ _ => [⟨("pneumonia is a lung infection".toList), some ("doc.pdf".toList), none, 2,
     some ("4".toList), none, none, none, none⟩],
   fun _ _ => [],
   fun _ _ => [("Pneumonia is a lung infection. It is treated with antibiotics.".toList)]⟩

/-! ## Helper lemmas -/

theorem length_dropWhile_le (p : Char → Bool) (l : Str) :
    (l.dropWhile p).length ≤ l.length := by
  have h := congrArg List.length (List.takeWhile_append_dropWhile p l)
  rw [List.length_append] at h
  omega

theorem pyRstrip_length (s : Str) : (pyRstrip s).length ≤ s.length := by
  unfold pyRstrip
  have h := length_dropWhile_le isPySpace s.reverse
  simpa using h

theorem dropTrailJunkF_length (fuel : Nat) :
    ∀ s : Str, (dropTrailJunkF fuel s).length ≤ s.length := by
  induction fuel with
  | zero => intro s; simp [dropTrailJunkF]
  | succ n ih =>
    intro s
    unfold dropTrailJunkF
    match h : s.getLast? with
    | none => simp
    | some c =>
      simp only
      split
      · calc (dropTrailJunkF n (pyRstrip s.dropLast)).length
            ≤ (pyRstrip s.dropLast).length := ih _
          _ ≤ s.dropLast.length := pyRstrip_length _
          _ ≤ s.length := by simp [List.length_dropLast]
      · exact Nat.le_refl _

theorem dropTrailJunk_length (s : Str) : (dropTrailJunk s).length ≤ s.length :=
  dropTrailJunkF_length s.length s

/-! ## C6 : conversation-context bounding -/

/-- C6 counterexample: starting from the empty context, six `add_to_context`
calls leave six stored turns — the claimed bound of (about) five with
oldest-first eviction does not hold; nothing is ever evicted. -/
theorem c6_counterexample :
    ¬ ((add_to_context (add_to_context (add_to_context (add_to_context
        (add_to_context (add_to_context [] [] [] []) [] [] []) [] [] [])
        [] [] []) [] [] []) [] [] []).length ≤ 5) := by
  decide

/-- C6 (amended): the conversation context is an unbounded append-only list:
every `add_to_context` call grows the stored sequence by exactly one turn,
no turn is ever evicted, and the context only becomes empty again through
`clear_conversation_context`. -/
theorem c6_append_only (ctx : List Turn) (q c : Str) (s : List Str) :
    (add_to_context ctx q c s).length = ctx.length + 1 ∧
    clear_conversation_context = ([] : List Turn) := by
  constructor
  · simp [add_to_context]
  · rfl

/-! ## C7 : compound-question splitting -/

theorem splitOn_eq_splitOnQm (q : Str) : q.splitOn '?' = splitOnQm q := by
  induction q with
  | nil => rfl
  | cons c rest ih =>
    simp only [List.splitOn] at ih ⊢
    rw [List.splitOnP_cons]
    by_cases h : c = '?'
    · simp [h, splitOnQm, ih]
    · have hne : rest.splitOnP (fun x => x == '?') ≠ [] := List.splitOnP_ne_nil _ rest
      simp only [splitOnQm, if_neg h, beq_iff_eq, h, if_false]
      rw [ih] at hne ⊢
      match h2 : splitOnQm rest with
      | [] => exact absurd h2 hne
      | hd :: tl => simp [List.modifyHead]

/-- C7: `split_compound` splits on `?`, keeps exactly the stripped fragments
with at least three whitespace-separated words in their original order with
`?` re-appended, and falls back to the original question when none
qualifies; in particular "What is diabetes? How is it treated?" yields
exactly the two sub-questions.  The general clause equates the source
translation with `splitCompoundSpec`, the contract written from the spec. -/
theorem c7_split_compound :
    split_compound ("What is diabetes? How is it treated?".toList) =
      [("What is diabetes?".toList), ("How is it treated?".toList)] ∧
    ∀ q : Str, split_compound q = splitCompoundSpec q := by
  constructor
  · decide
  · intro q
    unfold split_compound splitCompoundSpec
    rw [splitOn_eq_splitOnQm]

/-! ## C8 : embedding fail-safety -/

/-- C8: `get_embedding` never raises (it is a total function in this model):
for input whose strip is empty it returns the 384-dimension zero vector, and
when the encoder raises (and the value is not served from the cache) it also
returns the zero vector instead of propagating the error. -/
theorem c8_get_embedding_failsafe (hash : Str → Str)
    (enc : Str → Except Unit (List ℚ)) (cache : List (Str × List ℚ))
    (text : Str) (useCache : Bool) :
    ((pyStrip text).isEmpty = true →
      (get_embedding hash enc cache text useCache).1 = zeros384) ∧
    (alookup cache (hash text) = none → enc (pyStrip text) = Except.error () →
      (get_embedding hash enc cache text useCache).1 = zeros384) := by
  constructor
  · intro h
    unfold get_embedding
    simp [h]
  · intro hmiss herr
    unfold get_embedding
    by_cases he : text.isEmpty || (pyStrip text).isEmpty
    · simp [he]
    · rw [if_neg (by simp_all)]
      cases useCache <;> simp [hmiss, herr]

/-- C8 witness: a whitespace-only input and a failing encoder on a cache
miss both produce the zero vector. -/
theorem c8_witness :
    (get_embedding (fun s => s) (fun _ => Except.error ()) [] ("   ".toList) true).1 =
      zeros384 ∧
    (get_embedding (fun s => s) (fun _ => Except.error ()) [] ("x".toList) true).1 =
      zeros384 :=
  ⟨(c8_get_embedding_failsafe (fun s => s) (fun _ => Except.error ()) [] ("   ".toList)
      true).1 (by decide),
   (c8_get_embedding_failsafe (fun s => s) (fun _ => Except.error ()) [] ("x".toList)
      true).2 rfl rfl⟩

/-! ## C10 : tidy_text whitespace collapsing -/

theorem noTwoAdjWs_tail (a : Char) (l : Str) (h : noTwoAdjWs (a :: l) = true) :
    noTwoAdjWs l = true := by
  match l with
  | [] => rfl
  | b :: rest => simpa [noTwoAdjWs, Bool.and_eq_true] using And.right (by
      simpa [noTwoAdjWs, Bool.and_eq_true] using h)

theorem collapseWsF_ne_nil : ∀ (fuel : Nat) (l : Str), l ≠ [] → collapseWsF fuel l ≠ [] := by
  intro fuel
  induction fuel with
  | zero => intro l h; simpa [collapseWsF] using h
  | succ n ih =>
    intro l h
    match l with
    | [c] => simp [collapseWsF]
    | a :: b :: rest =>
      rw [collapseWsF]
      split
      · exact ih _ (by simp)
      · simp

theorem collapseWsF_head_ws : ∀ (fuel : Nat) (l : Str),
    isPySpace ((collapseWsF fuel l).headD 'x') = true →
      isPySpace (l.headD 'x') = true := by
  intro fuel
  induction fuel with
  | zero => intro l h; simpa [collapseWsF] using h
  | succ n ih =>
    intro l h
    match l with
    | [] => simpa [collapseWsF] using h
    | [c] => simpa [collapseWsF] using h
    | a :: b :: rest =>
      rw [collapseWsF] at h
      split at h
      · rename_i hws
        rw [Bool.and_eq_true] at hws
        simpa using hws.1
      · simpa using h

theorem noTwoAdjWs_collapseWsF : ∀ (fuel : Nat) (l : Str), l.length ≤ fuel →
    noTwoAdjWs (collapseWsF fuel l) = true := by
  intro fuel
  induction fuel with
  | zero =>
    intro l hl
    have : l = [] := List.length_eq_zero.mp (Nat.le_zero.mp hl)
    subst this
    rfl
  | succ n ih =>
    intro l hl
    match l with
    | [] => rfl
    | [c] => rfl
    | a :: b :: rest =>
      rw [collapseWsF]
      split
      · exact ih (' ' :: rest) (by simp at hl ⊢; omega)
      · rename_i hws
        have hrec := ih (b :: rest) (by simp at hl ⊢; omega)
        have hne := collapseWsF_ne_nil n (b :: rest) (by simp)
        match h2 : collapseWsF n (b :: rest) with
        | [] => exact absurd h2 hne
        | x :: xs =>
          have hx : isPySpace x = true → isPySpace b = true := by
            have h3 := collapseWsF_head_ws n (b :: rest)
            rw [h2] at h3
            simpa using h3
          rw [h2] at hrec
          simp only [noTwoAdjWs, Bool.and_eq_true]
          refine ⟨?_, hrec⟩
          simp only [Bool.not_eq_true']
          by_cases ha : isPySpace a = true
          · by_cases hxx : isPySpace x = true
            · have hb : isPySpace b = true := hx hxx
              exact absurd (by simp [ha, hb]) hws
            · simp [hxx]
          · simp [ha]

theorem noTwoAdjWs_collapseWs (l : Str) : noTwoAdjWs (collapseWs l) = true :=
  noTwoAdjWs_collapseWsF l.length l (Nat.le_refl _)

theorem nl3SubF_id_of_noTwoAdjWs : ∀ (fuel : Nat) (l : Str),
    noTwoAdjWs l = true → nl3SubF fuel l = l := by
  intro fuel
  induction fuel with
  | zero => intro l _; rfl
  | succ n ih =>
    intro l h
    match l with
    | [] => rfl
    | [a] => rfl
    | [a, b] => rfl
    | a :: b :: c :: rest =>
      rw [nl3SubF]
      split
      · rename_i hnl
        exfalso
        simp only [Bool.and_eq_true, decide_eq_true_eq] at hnl
        obtain ⟨⟨ha, hb⟩, _⟩ := hnl
        subst ha; subst hb
        simp [noTwoAdjWs, isPySpace] at h
      · rw [ih (b :: c :: rest) (noTwoAdjWs_tail _ _ h)]

theorem nl3Sub_id_of_noTwoAdjWs (l : Str) (h : noTwoAdjWs l = true) :
    nl3Sub l = l := nl3SubF_id_of_noTwoAdjWs l.length l h

theorem noTwoAdjWs_dropWhile (p : Char → Bool) (l : Str)
    (h : noTwoAdjWs l = true) : noTwoAdjWs (l.dropWhile p) = true := by
  induction l with
  | nil => rfl
  | cons a rest ih =>
    rw [List.dropWhile_cons]
    split
    · exact ih (noTwoAdjWs_tail _ _ h)
    · exact h

theorem noTwoAdjWs_append_left (l t : Str) (h : noTwoAdjWs (l ++ t) = true) :
    noTwoAdjWs l = true := by
  induction l with
  | nil => rfl
  | cons a rest ih =>
    match rest with
    | [] => rfl
    | b :: rest2 =>
      simp only [List.cons_append, noTwoAdjWs, Bool.and_eq_true] at h ⊢
      exact ⟨h.1, by simpa [noTwoAdjWs] using ih (by simpa [noTwoAdjWs] using h.2)⟩

theorem noTwoAdjWsOfPre (l t : Str) (hp : l <+: t) (h : noTwoAdjWs t = true) :
    noTwoAdjWs l = true := by
  obtain ⟨r, hr⟩ := hp
  subst hr
  exact noTwoAdjWs_append_left l r h

theorem pyRstripTakesPre (s : Str) : pyRstrip s <+: s := by
  unfold pyRstrip
  obtain ⟨t, ht⟩ := List.dropWhile_suffix (l := s.reverse) (p := isPySpace)
  refine ⟨t.reverse, ?_⟩
  have h2 := congrArg List.reverse ht
  simpa [List.reverse_append] using h2

theorem noTwoAdjWs_pyStrip (s : Str) (h : noTwoAdjWs s = true) :
    noTwoAdjWs (pyStrip s) = true := by
  unfold pyStrip pyLstrip
  exact noTwoAdjWsOfPre _ _ (pyRstripTakesPre _) (noTwoAdjWs_dropWhile _ _ h)

/-- C10: the output of `tidy_text` never contains two consecutive whitespace
characters: every run of two or more whitespace characters (including the
blank lines that separate paragraphs) is collapsed to a single space, so no
blank-line paragraph separation survives the final tidy pass. -/
theorem c10_tidy_no_double_whitespace (s : Str) :
    noTwoAdjWs (tidy_text s) = true := by
  unfold tidy_text
  have h1 := noTwoAdjWs_collapseWs (parenFix (wsPunct (emphSub '_' (emphSub '*' s))))
  rw [nl3Sub_id_of_noTwoAdjWs _ h1]
  exact noTwoAdjWs_pyStrip _ h1

/-! ## C5 : citation page lists -/

theorem charToNat_inj {a b : Char} (h : a.toNat = b.toNat) : a = b := by
  have hv : a.val.toNat = b.val.toNat := h
  exact Char.eq_of_val_eq (UInt32.toNat.inj hv)

theorem strLt_cons (a b : Char) (as bs : Str) :
    strLt (a :: as) (b :: bs) = (a.toNat < b.toNat || (a = b && strLt as bs)) := rfl

theorem strLt_asymm : ∀ a b : Str, strLt a b = true → strLt b a = false := by
  intro a
  induction a with
  | nil =>
    intro b h
    cases b with
    | nil => simp [strLt] at h
    | cons y ys => simp [strLt]
  | cons x xs ih =>
    intro b h
    cases b with
    | nil => simp [strLt] at h
    | cons y ys =>
      simp only [strLt_cons, Bool.or_eq_true, Bool.and_eq_true, decide_eq_true_eq] at h ⊢
      rcases h with h1 | ⟨rfl, h2⟩
      · simp only [Bool.or_eq_false_iff, Bool.and_eq_false_iff]
        constructor
        · simp; omega
        · left; simp only [decide_eq_false_iff_not]
          intro hyx
          subst hyx
          omega
      · simp [ih _ h2]

theorem strLt_trans : ∀ a b c : Str, strLt a b = true → strLt b c = true →
    strLt a c = true := by
  intro a
  induction a with
  | nil =>
    intro b c hab hbc
    cases b with
    | nil => simp [strLt] at hab
    | cons y ys =>
      cases c with
      | nil => simp [strLt] at hbc
      | cons z zs => simp [strLt]
  | cons x xs ih =>
    intro b c hab hbc
    cases b with
    | nil => simp [strLt] at hab
    | cons y ys =>
      cases c with
      | nil => simp [strLt] at hbc
      | cons z zs =>
        simp only [strLt_cons, Bool.or_eq_true, Bool.and_eq_true,
          decide_eq_true_eq] at hab hbc ⊢
        rcases hab with h1 | ⟨rfl, h2⟩
        · rcases hbc with g1 | ⟨rfl, g2⟩
          · left; omega
          · left; exact h1
        · rcases hbc with g1 | ⟨rfl, g2⟩
          · left; exact g1
          · right; exact ⟨rfl, ih _ _ h2 g2⟩

theorem strLt_connex : ∀ a b : Str, strLt a b = false → strLt b a = false →
    a = b := by
  intro a
  induction a with
  | nil =>
    intro b hab _
    cases b with
    | nil => rfl
    | cons y ys => simp [strLt] at hab
  | cons x xs ih =>
    intro b hab hba
    cases b with
    | nil => simp [strLt] at hba
    | cons y ys =>
      simp only [strLt_cons, Bool.or_eq_false_iff, Bool.and_eq_false_iff,
        decide_eq_false_iff_not] at hab hba
      obtain ⟨hxy, hab2⟩ := hab
      obtain ⟨hyx, hba2⟩ := hba
      have hxyeq : x = y := charToNat_inj (by omega)
      subst hxyeq
      have h2 : strLt xs ys = false := by
        rcases hab2 with h | h
        · simp at h
        · exact h
      have h3 : strLt ys xs = false := by
        rcases hba2 with h | h
        · simp at h
        · exact h
      rw [ih _ h2 h3]

theorem mem_insLe (x z : Str) : ∀ l : List Str, z ∈ insLe x l ↔ z = x ∨ z ∈ l := by
  intro l
  induction l with
  | nil => simp [insLe]
  | cons y ys ih =>
    by_cases h : strLt x y = true
    · simp [insLe, h]
    · simp only [insLe, if_neg h, List.mem_cons, ih]
      tauto

theorem insLe_perm (x : Str) : ∀ l : List Str, List.Perm (insLe x l) (x :: l) := by
  intro l
  induction l with
  | nil => exact List.Perm.refl _
  | cons y ys ih =>
    by_cases h : strLt x y = true
    · rw [insLe, if_pos h]
    · rw [insLe, if_neg h]
      exact (ih.cons y).trans (List.Perm.swap x y ys)

theorem sortStrs_perm : ∀ l : List Str, List.Perm (sortStrs l) l := by
  intro l
  induction l with
  | nil => exact List.Perm.refl _
  | cons x xs ih =>
    have h1 : sortStrs (x :: xs) = insLe x (sortStrs xs) := rfl
    rw [h1]
    exact (insLe_perm x (sortStrs xs)).trans (ih.cons x)

theorem insLe_sorted (x : Str) :
    ∀ l : List Str, List.Pairwise (fun a b => strLt b a = false) l →
      List.Pairwise (fun a b => strLt b a = false) (insLe x l) := by
  intro l
  induction l with
  | nil => intro _; simp [insLe]
  | cons y ys ih =>
    intro h
    rw [List.pairwise_cons] at h
    obtain ⟨hy, hys⟩ := h
    by_cases hxy : strLt x y = true
    · rw [insLe, if_pos hxy]
      rw [List.pairwise_cons]
      refine ⟨?_, ?_⟩
      · intro z hz
        rcases List.mem_cons.mp hz with rfl | hz2
        · exact strLt_asymm _ _ hxy
        · match hzx : strLt z x with
          | false => rfl
          | true =>
            have h3 : strLt z y = true := strLt_trans _ _ _ hzx hxy
            rw [hy z hz2] at h3
            exact h3.symm
      · rw [List.pairwise_cons]
        exact ⟨hy, hys⟩
    · rw [insLe, if_neg hxy]
      rw [List.pairwise_cons]
      refine ⟨?_, ih hys⟩
      intro z hz
      rcases (mem_insLe x z ys).mp hz with rfl | hz2
      · simpa using hxy
      · exact hy z hz2

theorem sortStrs_sorted : ∀ l : List Str,
    List.Pairwise (fun a b => strLt b a = false) (sortStrs l) := by
  intro l
  induction l with
  | nil => simp [sortStrs]
  | cons x xs ih => exact insLe_sorted x (sortStrs xs) ih

theorem sortStrs_pairwise_lt (l : List Str) (h : l.Nodup) :
    List.Pairwise (fun a b => strLt a b = true) (sortStrs l) := by
  have hnd : (sortStrs l).Nodup := ((sortStrs_perm l).nodup_iff).mpr h
  have hs := sortStrs_sorted l
  have := List.Pairwise.and hs hnd
  refine this.imp ?_
  intro a b hab
  obtain ⟨h1, h2⟩ := hab
  match h3 : strLt a b with
  | true => rfl
  | false => exact absurd (strLt_connex a b h3 h1) h2

theorem setAdd_nodup (l : List Str) (x : Str) (h : l.Nodup) :
    (setAdd l x).Nodup := by
  unfold setAdd
  split
  · exact h
  · rename_i hni
    rw [List.nodup_append]
    refine ⟨h, List.nodup_singleton x, ?_⟩
    intro a ha hax
    rw [List.mem_singleton] at hax
    subst hax
    exact hni ha

theorem pbsAdd_nodup : ∀ (m : List (Str × List Str)) (k v : Str),
    (∀ p ∈ m, p.2.Nodup) → ∀ p ∈ pbsAdd m k v, p.2.Nodup := by
  intro m
  induction m with
  | nil =>
    intro k v _ p hp
    simp only [pbsAdd, List.mem_singleton] at hp
    subst hp
    simp
  | cons q rest ih =>
    intro k v hm p hp
    match q with
    | (k', vs) =>
      rw [pbsAdd] at hp
      split at hp
      · rcases List.mem_cons.mp hp with heq | hp2
        · rw [heq]
          exact setAdd_nodup _ _ (hm (k', vs) (List.mem_cons_self _ _))
        · exact hm p (List.mem_cons_of_mem _ hp2)
      · rcases List.mem_cons.mp hp with heq | hp2
        · rw [heq]
          exact hm (k', vs) (List.mem_cons_self _ _)
        · exact ih k v (fun r hr => hm r (List.mem_cons_of_mem _ hr)) p hp2

theorem pages_by_source_nodup (hits : List Hit) :
    ∀ p ∈ pages_by_source hits, p.2.Nodup := by
  unfold pages_by_source
  generalize hm : ([] : List (Str × List Str)) = m0
  have h0 : ∀ p ∈ m0, p.2.Nodup := by subst hm; simp
  clear hm
  induction hits generalizing m0 with
  | nil => simpa using h0
  | cons it rest ih =>
    rw [List.foldl_cons]
    apply ih
    match it.page with
    | none => exact h0
    | some pg => exact pbsAdd_nodup m0 _ pg h0

theorem alookup_nodup_vals {α : Type} (m : List (Str × α)) (k : Str) (v : α)
    (h : alookup m k = some v) : ∃ p ∈ m, p.2 = v := by
  induction m with
  | nil => simp [alookup] at h
  | cons q rest ih =>
    match q with
    | (k', v') =>
      rw [alookup] at h
      split at h
      · have hv : v' = v := by injection h
        exact ⟨(k', v'), List.mem_cons_self _ _, hv⟩
      · obtain ⟨p, hp, hv⟩ := ih h
        exact ⟨p, List.mem_cons_of_mem _ hp, hv⟩

/-- C5: the citation formatter renders each source's recorded page set
sorted and deduplicated.  First clause: the concrete round-trip — source
list `["a.pdf"]` with hit pages `{"3","1","1"}` renders as
`a.pdf (p. 1, 3)`.  Second clause: for any hits and any source, the page
list used in the `basename (p. ...)` entry is strictly increasing in the
string order used by Python `sorted`, hence sorted with no duplicates. -/
theorem c5_citation_sorted_dedup :
    format_sources_with_pages [("a.pdf".toList)] (pages_by_source c5ExampleHits) =
      ("a.pdf (p. 1, 3)".toList) ∧
    ∀ (hits : List Hit) (s : Str),
      List.Pairwise (fun a b => strLt a b = true)
        (pagesFor (pages_by_source hits) s) := by
  constructor
  · decide
  · intro hits s
    unfold pagesFor
    apply sortStrs_pairwise_lt
    match h1 : alookup (pages_by_source hits) s with
    | some vs =>
      simp only [Option.getD_some]
      obtain ⟨p, hp, hv⟩ := alookup_nodup_vals _ _ _ h1
      exact hv ▸ pages_by_source_nodup hits p hp
    | none =>
      simp only [Option.getD_none]
      match h2 : alookup (pages_by_source hits) (pyBasename s) with
      | some vs =>
        simp only [Option.getD_some]
        obtain ⟨p, hp, hv⟩ := alookup_nodup_vals _ _ _ h2
        exact hv ▸ pages_by_source_nodup hits p hp
      | none => simp

/-! ## C4 : boundary trimming and finalisation bounds -/

theorem takeWhile_dropWhile_length (p : Char → Bool) (l : Str) :
    (l.takeWhile p).length + (l.dropWhile p).length = l.length := by
  have h := congrArg List.length (List.takeWhile_append_dropWhile p l)
  rwa [List.length_append] at h

theorem firstSome_eq {α : Type} :
    ∀ (l : List (Option α)) (r : α), firstSome l = some r → some r ∈ l := by
  intro l
  induction l with
  | nil => intro r h; simp [firstSome] at h
  | cons o rest ih =>
    intro r h
    match o with
    | some a =>
      rw [firstSome] at h
      rw [← h]
      exact List.mem_cons_self _ _
    | none =>
      rw [firstSome] at h
      exact List.mem_cons_of_mem _ (ih r h)

theorem tryPunct_length (snippet tail p r : Str)
    (h : tryPunct snippet tail p = some r) : r.length ≤ snippet.length := by
  unfold tryPunct at h
  split at h
  · exact absurd h (by simp)
  · rename_i idx heq
    split at h
    · exact absurd h (by simp)
    · have hr : pyRstrip (snippet.take (snippet.length - tail.length + idx + 1)) = r := by
        injection h
      rw [← hr]
      calc (pyRstrip (snippet.take (snippet.length - tail.length + idx + 1))).length
          ≤ (snippet.take (snippet.length - tail.length + idx + 1)).length :=
            pyRstrip_length _
        _ ≤ snippet.length := by simp

theorem smartTrimSpaceFallback_length (snippet : Str) (limit : Nat) :
    (smartTrimSpaceFallback snippet limit).length ≤ snippet.length := by
  unfold smartTrimSpaceFallback
  split
  · split
    · calc (dropTrailJunk (pyRstrip (snippet.take _))).length
          ≤ (pyRstrip (snippet.take _)).length := dropTrailJunk_length _
        _ ≤ (snippet.take _).length := pyRstrip_length _
        _ ≤ snippet.length := by simp
    · calc (dropTrailJunk (pyRstrip snippet)).length
          ≤ (pyRstrip snippet).length := dropTrailJunk_length _
        _ ≤ snippet.length := pyRstrip_length _
  · calc (dropTrailJunk (pyRstrip snippet)).length
        ≤ (pyRstrip snippet).length := dropTrailJunk_length _
      _ ≤ snippet.length := pyRstrip_length _

theorem smart_trim_length (t : Str) (limit : Nat) :
    (smart_trim t limit).length ≤ limit := by
  rw [smart_trim]
  split
  · assumption
  · rename_i hgt
    have hsnip : (t.take limit).length ≤ limit := by simp
    simp only
    split
    · rename_i r hr
      have hmem := firstSome_eq _ _ hr
      rw [List.mem_map] at hmem
      obtain ⟨p, _, hp⟩ := hmem
      exact le_trans (tryPunct_length _ _ _ _ hp) hsnip
    · split
      · rename_i nl hnl
        split
        · calc (dropTrailJunk (pyRstrip ((t.take limit).take nl))).length
              ≤ (pyRstrip ((t.take limit).take nl)).length := dropTrailJunk_length _
            _ ≤ ((t.take limit).take nl).length := pyRstrip_length _
            _ ≤ (t.take limit).length := by simp
            _ ≤ limit := hsnip
        · exact le_trans (smartTrimSpaceFallback_length _ _) hsnip
      · exact le_trans (smartTrimSpaceFallback_length _ _) hsnip

theorem emphTryCore_length (m : Char) (afterOp b a : Str)
    (h : emphTryCore m afterOp = some (b, a)) :
    b.length + a.length + 1 ≤ afterOp.length := by
  unfold emphTryCore at h
  have hsplit := takeWhile_dropWhile_length (fun x => decide (x ≠ m)) afterOp
  split at h
  · exact absurd h (by simp)
  · rename_i d s2 hAB
    split at h
    · exact absurd h (by simp)
    · have hba : afterOp.takeWhile (fun x => decide (x ≠ m)) = b ∧
          (if s2.head? = some m then s2.tail else s2) = a := by
        injection h with h1
        exact ⟨congrArg Prod.fst h1, congrArg Prod.snd h1⟩
      obtain ⟨hb, ha⟩ := hba
      have hABlen : (afterOp.dropWhile (fun x => decide (x ≠ m))).length =
          s2.length + 1 := by rw [hAB]; simp
      have hAlen : a.length ≤ s2.length := by
        rw [← ha]
        split
        · simp
        · exact Nat.le_refl _
      have hblen : b.length = (afterOp.takeWhile (fun x => decide (x ≠ m))).length := by
        rw [hb]
      omega

theorem emphTry_length (m : Char) :
    ∀ (s b a : Str), emphTry m s = some (b, a) → b.length + a.length + 2 ≤ s.length := by
  intro s b a h
  match s with
  | [] => simp [emphTry] at h
  | c :: s1 =>
    rw [emphTry] at h
    split at h
    · exact absurd h (by simp)
    · have hcore := emphTryCore_length m _ b a h
      have hOp : (if s1.head? = some m then s1.tail else s1).length ≤ s1.length := by
        split
        · simp
        · exact Nat.le_refl _
      simp only [List.length_cons]
      omega

theorem emphSubF_length (m : Char) :
    ∀ (fuel : Nat) (s : Str), (emphSubF m fuel s).length ≤ s.length := by
  intro fuel
  induction fuel with
  | zero => intro s; simp [emphSubF]
  | succ n ih =>
    intro s
    match s with
    | [] => simp [emphSubF]
    | c :: rest =>
      rw [emphSubF]
      split
      · split
        · rename_i b a hTry
          have hb := emphTry_length m (c :: rest) b a hTry
          have hrec := ih a
          simp only [List.length_append, List.length_cons]
          simp only [List.length_cons] at hb
          omega
        · simp only [List.length_cons]
          have := ih rest
          omega
      · simp only [List.length_cons]
        have := ih rest
        omega

theorem wsPunctF_length :
    ∀ (fuel : Nat) (s : Str), (wsPunctF fuel s).length ≤ s.length := by
  intro fuel
  induction fuel with
  | zero => intro s; simp [wsPunctF]
  | succ n ih =>
    intro s
    match s with
    | [] => simp [wsPunctF]
    | c :: rest =>
      rw [wsPunctF]
      have hsplit := takeWhile_dropWhile_length isPySpace (c :: rest)
      split
      · rename_i hws
        split
        · rename_i p after2 hAfter
          have hA : ((c :: rest).dropWhile isPySpace).length = after2.length + 1 := by
            rw [hAfter]; simp
          have hrun : 1 ≤ ((c :: rest).takeWhile isPySpace).length := by
            rw [List.takeWhile_cons_of_pos hws]
            simp
          split
          · have hrec := ih after2
            simp only [List.length_cons] at hsplit ⊢
            omega
          · have hrec := ih (p :: after2)
            simp only [List.length_append, List.length_cons] at hrec hsplit ⊢
            omega
        · rename_i hAfter
          have h0 : ((c :: rest).dropWhile isPySpace).length = 0 := by rw [hAfter]; rfl
          simp only [List.length_cons] at hsplit ⊢
          omega
      · simp only [List.length_cons]
        have := ih rest
        omega

theorem parenFixF_length :
    ∀ (fuel : Nat) (s : Str), (parenFixF fuel s).length ≤ s.length := by
  intro fuel
  induction fuel with
  | zero => intro s; simp [parenFixF]
  | succ n ih =>
    intro s
    match s with
    | [] => simp [parenFixF]
    | c :: rest =>
      rw [parenFixF]
      have hsplit := takeWhile_dropWhile_length isPySpace rest
      split
      · split
        · rename_i hcond
          rw [Bool.and_eq_true] at hcond
          obtain ⟨hrunNe, hheads⟩ := hcond
          have hrun : 1 ≤ (rest.takeWhile isPySpace).length := by
            match h2 : rest.takeWhile isPySpace with
            | [] => rw [h2] at hrunNe; simp at hrunNe
            | _ :: _ => simp
          have hA : 1 ≤ (rest.dropWhile isPySpace).length := by
            match h3 : rest.dropWhile isPySpace with
            | [] =>
              rw [h3] at hheads
              simp at hheads
            | _ :: _ => simp
          have hrec := ih (rest.dropWhile isPySpace).tail
          have htail : (rest.dropWhile isPySpace).tail.length =
              (rest.dropWhile isPySpace).length - 1 := by simp
          simp only [List.length_cons]
          omega
        · simp only [List.length_cons]
          have := ih rest
          omega
      · simp only [List.length_cons]
        have := ih rest
        omega

theorem collapseWsF_length : ∀ (fuel : Nat) (l : Str),
    (collapseWsF fuel l).length ≤ l.length := by
  intro fuel
  induction fuel with
  | zero => intro l; simp [collapseWsF]
  | succ n ih =>
    intro l
    match l with
    | [] => simp [collapseWsF]
    | [c] => simp [collapseWsF]
    | a :: b :: rest =>
      rw [collapseWsF]
      split
      · have := ih (' ' :: rest)
        simp only [List.length_cons] at this ⊢
        omega
      · have := ih (b :: rest)
        simp only [List.length_cons] at this ⊢
        omega

theorem collapseWs_length (l : Str) : (collapseWs l).length ≤ l.length :=
  collapseWsF_length l.length l

theorem nl3SubF_length : ∀ (fuel : Nat) (l : Str),
    (nl3SubF fuel l).length ≤ l.length := by
  intro fuel
  induction fuel with
  | zero => intro l; simp [nl3SubF]
  | succ n ih =>
    intro l
    match l with
    | [] => simp [nl3SubF]
    | [a] => simp [nl3SubF]
    | [a, b] => simp [nl3SubF]
    | a :: b :: c :: rest =>
      rw [nl3SubF]
      split
      · have := ih ('\n' :: '\n' :: rest)
        simp only [List.length_cons] at this ⊢
        omega
      · have := ih (b :: c :: rest)
        simp only [List.length_cons] at this ⊢
        omega

theorem nl3Sub_length (l : Str) : (nl3Sub l).length ≤ l.length :=
  nl3SubF_length l.length l

theorem pyStrip_length (s : Str) : (pyStrip s).length ≤ s.length := by
  unfold pyStrip pyLstrip
  calc (pyRstrip (s.dropWhile isPySpace)).length
      ≤ (s.dropWhile isPySpace).length := pyRstrip_length _
    _ ≤ s.length := length_dropWhile_le _ _

theorem tidy_text_length (t : Str) : (tidy_text t).length ≤ t.length := by
  unfold tidy_text emphSub wsPunct parenFix
  calc (pyStrip (nl3Sub (collapseWs (parenFixF _ (wsPunctF _ (emphSubF '_' _
        (emphSubF '*' _ t))))))).length
      ≤ (nl3Sub (collapseWs (parenFixF _ (wsPunctF _ (emphSubF '_' _
        (emphSubF '*' _ t)))))).length := pyStrip_length _
    _ ≤ (collapseWs (parenFixF _ (wsPunctF _ (emphSubF '_' _
        (emphSubF '*' _ t))))).length := nl3Sub_length _
    _ ≤ (parenFixF _ (wsPunctF _ (emphSubF '_' _ (emphSubF '*' _ t)))).length :=
        collapseWs_length _
    _ ≤ (wsPunctF _ (emphSubF '_' _ (emphSubF '*' _ t))).length := parenFixF_length _ _
    _ ≤ (emphSubF '_' _ (emphSubF '*' _ t)).length := wsPunctF_length _ _
    _ ≤ (emphSubF '*' _ t).length := emphSubF_length _ _ _
    _ ≤ t.length := emphSubF_length _ _ _

theorem fixToTerminal_length (s : Str) :
    (fixToTerminal s).length ≤ s.length + 1 := by
  unfold fixToTerminal
  split
  · omega
  · split
    · omega
    · rw [List.length_append]
      have h1 := dropTrailJunk_length s
      have h2 := pyRstrip_length (dropTrailJunk s)
      simp only [List.length_singleton]
      omega

theorem fixToTerminal_ends (s : Str) :
    fixToTerminal s = [] ∨
    ∃ c, (fixToTerminal s).getLast? = some c ∧ (c = '.' ∨ c = '!' ∨ c = '?') := by
  unfold fixToTerminal
  match h : s.getLast? with
  | none =>
    left
    simpa using h
  | some c =>
    simp only
    split
    · rename_i hc
      right
      refine ⟨c, h, ?_⟩
      simp only [Bool.or_eq_true, decide_eq_true_eq] at hc
      tauto
    · right
      exact ⟨'.', by simp, Or.inl rfl⟩

set_option maxRecDepth 40000 in
/-- C4 counterexample to the claim as stated: with the 380-char definition
intent cap, an accumulated run of 500 letters finalises to 381 characters
(the trim keeps the full 380-char snippet, and the fixup appends a period),
exceeding the cap; and an accumulated string of 10 `(` characters with cap 5
finalises to the empty string, which has no terminal-punctuation last
character. -/
theorem c4_counterexample :
    ¬ ((finalizeAnswer (List.replicate 500 'a') 380).length ≤ 380) ∧
    finalizeAnswer (List.replicate 10 '(') 5 = [] := by
  constructor
  · decide
  · decide

/-- C4 (amended): for every accumulated answer string and cap, the finalised
answer produced by `smart_trim`, `tidy_text` and the terminal-punctuation
fixup has length at most the cap plus one (the appended period may exceed
the cap by one character), and — when it is non-empty — its last character
is `.`, `!`, or `?` (the finalised answer can be empty, e.g. when the
trimmed text consists only of stripped junk characters). -/
theorem c4_trim_finalize_bounds (accum : Str) (cap : Nat) :
    (finalizeAnswer accum cap).length ≤ cap + 1 ∧
    (finalizeAnswer accum cap = [] ∨
      ∃ c, (finalizeAnswer accum cap).getLast? = some c ∧
        (c = '.' ∨ c = '!' ∨ c = '?')) := by
  constructor
  · unfold finalizeAnswer
    have h1 := smart_trim_length (pyStrip accum) cap
    have h2 := tidy_text_length (smart_trim (pyStrip accum) cap)
    have h3 := fixToTerminal_length (tidy_text (smart_trim (pyStrip accum) cap))
    omega
  · exact fixToTerminal_ends _

/-! ## C2 : intent short-circuits skip retrieval and generation -/

theorem is_greeting_ne_nil (q : Str) (h : is_greeting q = true) : q.isEmpty = false := by
  match q with
  | [] => exact absurd h (by decide)
  | _ :: _ => rfl

theorem is_help_ne_nil (q : Str) (h : is_help q = true) : q.isEmpty = false := by
  match q with
  | [] => exact absurd h (by decide)
  | _ :: _ => rfl

theorem smalltalkIntercept_ne_nil (q : Str) (r : Str)
    (h : smalltalkIntercept q = some r) : q.isEmpty = false := by
  match q with
  | [] =>
    rw [show smalltalkIntercept [] = none from by decide] at h
    exact absurd h (by simp)
  | _ :: _ => rfl

/-- C2 (amended): inputs classified as Greeting, as Help with no recent
conversation context, or as smalltalk matching one of the standalone
fullmatch forms `(thank you|thanks)[.! ]*`, `(ok|okay)[.! ]*`,
`(hi|hello|hey)[.! ]*` (without a `?` and without trailing content after the
ok/okay/thanks/thank-you token) receive the canned short-circuit response
with the conversation context unchanged and zero collaborator calls — no
embedding, no vector search, no generation.  (Smalltalk inputs outside those
forms, such as "how are you", fall through to normal answering; see the
counterexample.) -/
theorem c2_short_circuit_gates (q : Str) (ent : Bool) (env : Env) (ctx : List Turn) :
    (is_greeting (pyStrip q) = true →
      answer_question_stream q ent env ctx = ⟨[greetingResponseS], ctx, zeroLog⟩) ∧
    (is_greeting (pyStrip q) = false → is_help (pyStrip q) = true → ctx = [] →
      answer_question_stream q ent env ctx = ⟨[helpResponseS], ctx, zeroLog⟩) ∧
    (∀ r, is_greeting (pyStrip q) = false →
      (is_help (pyStrip q) = false ∨ ctx ≠ []) →
      smalltalkIntercept (pyStrip q) = some r →
      answer_question_stream q ent env ctx = ⟨[r], ctx, zeroLog⟩) := by
  refine ⟨?_, ?_, ?_⟩
  · intro hg
    have hne := is_greeting_ne_nil _ hg
    simp [answer_question_stream, hne, hg]
  · intro hg hh hctx
    have hne := is_help_ne_nil _ hh
    subst hctx
    simp [answer_question_stream, hne, hg, hh, hasRecentContext]
  · intro r hg hgate hs
    have hne := smalltalkIntercept_ne_nil _ _ hs
    rcases hgate with hh | hctx
    · simp [answer_question_stream, hne, hg, hh, hs]
    · have hrc : hasRecentContext ctx = true := by
        unfold hasRecentContext
        match ctx, hctx with
        | t :: rest, _ => rfl
      simp [answer_question_stream, hne, hg, hrc, hs]

/-- C2 counterexample to the claim as stated: "how are you" is standalone
smalltalk (no question mark, no trailing content), yet the pipeline does not
yield a canned response — it proceeds to retrieval and invokes the
embedding call. -/
theorem c2_counterexample :
    is_smalltalk ("how are you".toList) = true ∧
    containsSub (pyStrip (pyLower ("how are you".toList))) ("?".toList) = false ∧
    (answer_question_stream ("how are you".toList) false emptyEnv []).log.embedCalls = 1 ∧
    (answer_question_stream ("how are you".toList) false emptyEnv []).out = [noInfoMsg] := by
  refine ⟨by decide, by decide, by decide, by decide⟩

/-- C2 witness: a greeting, a help request on a fresh session, and a bare
"thanks" each short-circuit with zero collaborator calls. -/
theorem c2_witness :
    (answer_question_stream ("hello".toList) false emptyEnv []).log = zeroLog ∧
    (answer_question_stream ("help".toList) false emptyEnv []).out = [helpResponseS] ∧
    (answer_question_stream ("thanks".toList) false emptyEnv []).out = [thanksReply] := by
  refine ⟨?_, ?_, ?_⟩
  · rw [(c2_short_circuit_gates ("hello".toList) false emptyEnv []).1 (by decide)]
  · rw [(c2_short_circuit_gates ("help".toList) false emptyEnv []).2.1 (by decide)
      (by decide) rfl]
  · rw [(c2_short_circuit_gates ("thanks".toList) false emptyEnv []).2.2 thanksReply
      (by decide) (Or.inl (by decide)) (by decide)]

/-! ## C1 : single-common-surname disambiguation -/

theorem insHitDesc_length (x : Hit) : ∀ l : List Hit,
    (insHitDesc x l).length = l.length + 1 := by
  intro l
  induction l with
  | nil => rfl
  | cons y ys ih =>
    rw [insHitDesc]
    split
    · simp
    · simp only [List.length_cons, ih]

theorem sortByScoreDesc_length (l : List Hit) :
    (sortByScoreDesc l).length = l.length := by
  induction l with
  | nil => rfl
  | cons x xs ih =>
    have h : sortByScoreDesc (x :: xs) = insHitDesc x (sortByScoreDesc xs) := rfl
    rw [h, insHitDesc_length, ih]
    rfl

theorem retrieveHits_ne_nil (q : Str) (env : Env)
    (h : env.searchDoc (env.embed q) 20 ++ env.searchWeb (env.embed q) 20 ≠ []) :
    retrieveHits q env ≠ [] := by
  unfold retrieveHits
  dsimp only
  have hlen : (sortByScoreDesc (env.searchDoc (env.embed q) 20 ++
      env.searchWeb (env.embed q) 20)).length ≠ 0 := by
    rw [sortByScoreDesc_length]
    simpa [List.length_eq_zero] using h
  have hsne : sortByScoreDesc (env.searchDoc (env.embed q) 20 ++
      env.searchWeb (env.embed q) 20) ≠ [] := by
    intro hcon
    rw [hcon] at hlen
    exact hlen rfl
  split
  · split
    · rename_i hwo
      simpa using hwo
    · exact hsne
  · exact hsne

theorem splitLowerAlnum_nil : splitLowerAlnum [] = [] := rfl

/-- C1 (amended): for a question whose extracted name phrase is a single
common surname (and which passes the greeting/help/smalltalk gates with a
non-empty merged hit list), `answer_question_stream` yields exactly the
disambiguation request and never reaches generation — but retrieval is NOT
skipped: the embedding call and both vector searches have already run
(one call each) before the surname check. -/
theorem c1_surname_disambiguation (q : Str) (env : Env) (ctx : List Turn) (t : Str)
    (hg : is_greeting (pyStrip q) = false)
    (hh : is_help (pyStrip q) = false)
    (hs : smalltalkIntercept (pyStrip q) = none)
    (hq : (pyStrip q).isEmpty = false)
    (hhits : env.searchDoc (env.embed (pyStrip q)) 20 ++
      env.searchWeb (env.embed (pyStrip q)) 20 ≠ [])
    (ht : splitLowerAlnum (pyLower (extract_name_phrase (pyStrip q))) = [t])
    (hmem : commonSurnames.contains t = true) :
    answer_question_stream q false env ctx = ⟨[disambigMsg], ctx, retrLog 0⟩ := by
  have hnp : (extract_name_phrase (pyStrip q)).isEmpty = false := by
    match h2 : extract_name_phrase (pyStrip q) with
    | [] =>
      rw [h2] at ht
      simp [pyLower, splitLowerAlnum_nil] at ht
    | _ :: _ => rfl
  have hso : isSurnameOnly (extract_name_phrase (pyStrip q)) = true := by
    unfold isSurnameOnly
    rw [ht]
    simpa using hmem
  have hmain : mainPath (pyStrip q) env ctx = ⟨[disambigMsg], ctx, retrLog 0⟩ := by
    unfold mainPath
    have hr := retrieveHits_ne_nil (pyStrip q) env hhits
    have hre : (retrieveHits (pyStrip q) env).isEmpty = false := by
      match h3 : retrieveHits (pyStrip q) env with
      | [] => exact absurd h3 hr
      | _ :: _ => rfl
    simp [hre, hnp, hso]
  simp [answer_question_stream, hq, hg, hh, hs, hmain]

/-- C1 counterexample to the claim as stated: for "who is reddy" (with one
stored document hit), the disambiguation request is produced, but retrieval
is not skipped — the embedding call and both vector searches are each
invoked once before the short-circuit. -/
theorem c1_counterexample :
    (answer_question_stream ("who is reddy".toList) false c1Env []).out =
      [disambigMsg] ∧
    (answer_question_stream ("who is reddy".toList) false c1Env []).log =
      ⟨1, 1, 1, 0⟩ := by
  refine ⟨by decide, by decide⟩

/-- C1 witness: the amended theorem applied at "who is reddy". -/
theorem c1_witness :
    answer_question_stream ("who is reddy".toList) false c1Env [] =
      ⟨[disambigMsg], [], retrLog 0⟩ :=
  c1_surname_disambiguation ("who is reddy".toList) c1Env [] ("reddy".toList)
    (by decide) (by decide) (by decide) (by decide) (by decide) (by decide) (by decide)

/-! ## C3 : cross-collection source diversity -/

theorem argmaxAux_mem (sbs : List (Str × ℚ)) : ∀ (xs : List Str) (x : Str),
    xs.foldl (fun best y =>
      if (alookup sbs best).getD 0 < (alookup sbs y).getD 0 then y else best) x ∈
      x :: xs := by
  intro xs
  induction xs with
  | nil => intro x; simp
  | cons y ys ih =>
    intro x
    rw [List.foldl_cons]
    have h := ih (if (alookup sbs x).getD 0 < (alookup sbs y).getD 0 then y else x)
    rcases List.mem_cons.mp h with h1 | h1
    · rw [h1]
      split
      · simp
      · simp
    · simp [List.mem_cons, h1]

theorem argmaxAux_max (sbs : List (Str × ℚ)) : ∀ (xs : List Str) (x : Str),
    ∀ s ∈ x :: xs, (alookup sbs s).getD 0 ≤
      (alookup sbs (xs.foldl (fun best y =>
        if (alookup sbs best).getD 0 < (alookup sbs y).getD 0 then y else best) x)).getD 0 := by
  intro xs
  induction xs with
  | nil =>
    intro x s hs
    rcases List.mem_cons.mp hs with rfl | h1
    · simp
    · simp at h1
  | cons y ys ih =>
    intro x s hs
    rw [List.foldl_cons]
    have hstep : (alookup sbs x).getD 0 ≤
        (alookup sbs (if (alookup sbs x).getD 0 < (alookup sbs y).getD 0 then y
          else x)).getD 0 ∧
        (alookup sbs y).getD 0 ≤
        (alookup sbs (if (alookup sbs x).getD 0 < (alookup sbs y).getD 0 then y
          else x)).getD 0 := by
      constructor
      · split
        · rename_i hlt; exact le_of_lt hlt
        · exact le_refl _
      · split
        · exact le_refl _
        · rename_i hlt; exact le_of_not_lt hlt
    have hhead := ih (if (alookup sbs x).getD 0 < (alookup sbs y).getD 0 then y else x)
      _ (List.mem_cons_self _ _)
    rcases List.mem_cons.mp hs with rfl | h1
    · exact le_trans hstep.1 hhead
    · rcases List.mem_cons.mp h1 with rfl | h2
      · exact le_trans hstep.2 hhead
      · exact ih _ s (List.mem_cons_of_mem _ h2)

theorem argmaxScore_mem (sbs : List (Str × ℚ)) (l : List Str) (w : Str)
    (h : argmaxScore sbs l = some w) : w ∈ l := by
  match l with
  | [] => simp [argmaxScore] at h
  | x :: xs =>
    rw [argmaxScore] at h
    have hw : xs.foldl (fun best y =>
        if (alookup sbs best).getD 0 < (alookup sbs y).getD 0 then y else best) x = w := by
      injection h
    rw [← hw]
    exact argmaxAux_mem sbs xs x

theorem argmaxScore_max (sbs : List (Str × ℚ)) (l : List Str) (w : Str)
    (h : argmaxScore sbs l = some w) :
    ∀ s ∈ l, (alookup sbs s).getD 0 ≤ (alookup sbs w).getD 0 := by
  match l with
  | [] => simp
  | x :: xs =>
    rw [argmaxScore] at h
    have hw : xs.foldl (fun best y =>
        if (alookup sbs best).getD 0 < (alookup sbs y).getD 0 then y else best) x = w := by
      injection h
    rw [← hw]
    exact argmaxAux_max sbs xs x

theorem hitName_ne_nil (h : Hit) : hitName h ≠ [] := by
  unfold hitName pyOrS
  match h.filename with
  | some f =>
    simp only
    split
    · match h.source with
      | some s =>
        simp only
        split
        · decide
        · rename_i hse
          simpa using hse
      | none => decide
    · rename_i hfe
      simpa using hfe
  | none =>
    match h.source with
    | some s =>
      simp only
      split
      · decide
      · rename_i hse
        simpa using hse
    | none => decide

theorem addScore_keys : ∀ (m : List (Str × ℚ)) (k : Str) (v : ℚ),
    (∀ p ∈ m, p.1 ≠ []) → k ≠ [] → ∀ p ∈ addScore m k v, p.1 ≠ [] := by
  intro m
  induction m with
  | nil =>
    intro k v _ hk p hp
    simp only [addScore, List.mem_singleton] at hp
    subst hp
    exact hk
  | cons q rest ih =>
    intro k v hm hk p hp
    match q with
    | (k', v') =>
      rw [addScore] at hp
      split at hp
      · rcases List.mem_cons.mp hp with heq | hp2
        · rw [heq]
          exact hm (k', v') (List.mem_cons_self _ _)
        · exact hm p (List.mem_cons_of_mem _ hp2)
      · rcases List.mem_cons.mp hp with heq | hp2
        · rw [heq]
          exact hm (k', v') (List.mem_cons_self _ _)
        · exact ih k v (fun r hr => hm r (List.mem_cons_of_mem _ hr)) hk p hp2

theorem aggScores_keys (hits : List Hit) : ∀ p ∈ aggScores hits, p.1 ≠ [] := by
  unfold aggScores
  generalize hm : ([] : List (Str × ℚ)) = m0
  have h0 : ∀ p ∈ m0, p.1 ≠ [] := by subst hm; simp
  clear hm
  induction hits generalizing m0 with
  | nil => simpa using h0
  | cons it rest ih =>
    rw [List.foldl_cons]
    exact ih _ (addScore_keys m0 (hitName it) it.score h0 (hitName_ne_nil it))

theorem webSourcesOf_spec (hits : List Hit) (s : Str) (h : s ∈ webSourcesOf hits) :
    s ≠ [] ∧ alookup (kindsFold hits) s = some true := by
  unfold webSourcesOf at h
  rw [List.mem_map] at h
  obtain ⟨p, hp, hps⟩ := h
  rw [List.mem_filter] at hp
  obtain ⟨hpm, hpf⟩ := hp
  subst hps
  exact ⟨aggScores_keys hits p hpm, by simpa using hpf⟩

theorem docSourcesOf_spec (hits : List Hit) (s : Str) (h : s ∈ docSourcesOf hits) :
    s ≠ [] ∧ alookup (kindsFold hits) s = some false := by
  unfold docSourcesOf at h
  rw [List.mem_map] at h
  obtain ⟨p, hp, hps⟩ := h
  rw [List.mem_filter] at hp
  obtain ⟨hpm, hpf⟩ := hp
  subst hps
  exact ⟨aggScores_keys hits p hpm, by simpa using hpf⟩

theorem seedSelection_pair (d w : Str) (hd : d ≠ []) (hw : w ≠ []) (hne : w ≠ d) :
    seedSelection (some d) (some w) = [d, w] := by
  unfold seedSelection
  have hd' : d.isEmpty = false := by
    match d, hd with
    | _ :: _, _ => rfl
  have hw' : w.isEmpty = false := by
    match w, hw with
    | _ :: _, _ => rfl
  simp only [hd', Bool.not_false, if_true]
  have hc : ([d].contains w) = false := by
    simp [List.contains, hne]
  simp only [hw', Bool.not_false, hc, Bool.and_self, if_true]
  rfl

theorem fillUpKeepsPre (n : Nat) : ∀ (rem sel : List Str), sel <+: fillUp n sel rem := by
  intro rem
  induction rem with
  | nil => intro sel; exact List.prefix_refl _
  | cons r rs ih =>
    intro sel
    rw [fillUp]
    split
    · exact List.prefix_refl _
    · exact List.IsPrefix.trans (List.prefix_append sel [r]) (ih (sel ++ [r]))

theorem mem_take_three (L : List Str) (a b : Str) (h : [a, b] <+: L) :
    a ∈ L.take 3 ∧ b ∈ L.take 3 := by
  obtain ⟨t, ht⟩ := h
  subst ht
  simp

/-- C3: for a non-name-phrase query, when the merged hit list contains at
least one web-kind source and at least one document-kind source, the
selected source set (target size 3) includes both the web source with the
highest aggregate score and the document source with the highest aggregate
score — regardless of how the raw scores are distributed. -/
theorem c3_cross_collection_diversity (hits : List Hit)
    (hw : webSourcesOf hits ≠ []) (hd : docSourcesOf hits ≠ []) :
    ∃ w d : Str,
      argmaxScore (aggScores hits) (webSourcesOf hits) = some w ∧
      argmaxScore (aggScores hits) (docSourcesOf hits) = some d ∧
      w ∈ selectSources hits [] ∧ d ∈ selectSources hits [] ∧
      (∀ s ∈ webSourcesOf hits, scoreOf hits s ≤ scoreOf hits w) ∧
      (∀ s ∈ docSourcesOf hits, scoreOf hits s ≤ scoreOf hits d) := by
  obtain ⟨w, hwEq⟩ : ∃ w, argmaxScore (aggScores hits) (webSourcesOf hits) = some w := by
    match h1 : webSourcesOf hits, hw with
    | x :: xs, _ => exact ⟨_, rfl⟩
  obtain ⟨d, hdEq⟩ : ∃ d, argmaxScore (aggScores hits) (docSourcesOf hits) = some d := by
    match h1 : docSourcesOf hits, hd with
    | x :: xs, _ => exact ⟨_, rfl⟩
  have hwMem := argmaxScore_mem _ _ _ hwEq
  have hdMem := argmaxScore_mem _ _ _ hdEq
  obtain ⟨hwNe, hwKind⟩ := webSourcesOf_spec hits w hwMem
  obtain ⟨hdNe, hdKind⟩ := docSourcesOf_spec hits d hdMem
  have hne : w ≠ d := by
    intro hcon
    rw [hcon, hdKind] at hwKind
    simp at hwKind
  have hseed : seedSelection (argmaxScore (aggScores hits) (docSourcesOf hits))
      (argmaxScore (aggScores hits) (webSourcesOf hits)) = [d, w] := by
    rw [hwEq, hdEq]
    exact seedSelection_pair d w hdNe hwNe hne
  have hsel : ∀ s, s ∈ [d, w] → s ∈ selectSources hits [] := by
    intro s hs
    unfold selectSources
    simp only [List.isEmpty_nil, Bool.not_false]
    rw [hseed]
    have hpre := fillUpKeepsPre 3
      ((((sortPairsDesc (aggScores hits)).map Prod.fst).filter
        (fun s => !([d, w].contains s)))) [d, w]
    have h3 := mem_take_three _ d w hpre
    rcases List.mem_cons.mp hs with rfl | hs2
    · simpa using h3.1
    · rcases List.mem_cons.mp hs2 with rfl | h0
      · simpa using h3.2
      · simp at h0
  refine ⟨w, d, hwEq, hdEq, hsel w (by simp), hsel d (by simp), ?_, ?_⟩
  · intro s hs
    exact argmaxScore_max _ _ _ hwEq s hs
  · intro s hs
    exact argmaxScore_max _ _ _ hdEq s hs

/-- C3 witness: with five high-scoring hits all from one document source and
a single lower-scoring web hit, both `big.pdf` and the web source are
selected. -/
theorem c3_witness :
    (∃ w d : Str,
      argmaxScore (aggScores c3Hits) (webSourcesOf c3Hits) = some w ∧
      argmaxScore (aggScores c3Hits) (docSourcesOf c3Hits) = some d ∧
      w ∈ selectSources c3Hits [] ∧ d ∈ selectSources c3Hits [] ∧
      (∀ s ∈ webSourcesOf c3Hits, scoreOf c3Hits s ≤ scoreOf c3Hits w) ∧
      (∀ s ∈ docSourcesOf c3Hits, scoreOf c3Hits s ≤ scoreOf c3Hits d)) ∧
    selectSources c3Hits [] =
      [("d1.pdf".toList), ("http://ex.com".toList), ("d2.pdf".toList)] :=
  ⟨c3_cross_collection_diversity c3Hits (by decide) (by decide), by decide⟩

/-! ## C9 : new-session idempotence -/

theorem mainPath_out_indep (q : Str) (env : Env) (ctx ctx' : List Turn)
    (hmock : ∀ p c p' c', env.gen p c = env.gen p' c') :
    (mainPath q env ctx).out = (mainPath q env ctx').out := by
  unfold mainPath
  dsimp only
  split
  · rfl
  · split
    · rfl
    · rw [hmock
        (choosePrompt q (selectSources (nameAdjust (extract_name_phrase q)
          (retrieveHits q env)) (extract_name_phrase q))
          (buildContext (buildSrcMap (nameAdjust (extract_name_phrase q)
            (retrieveHits q env)) (selectSources (nameAdjust (extract_name_phrase q)
            (retrieveHits q env)) (extract_name_phrase q))))
          (add_to_context ctx q (buildContext (buildSrcMap
            (nameAdjust (extract_name_phrase q) (retrieveHits q env))
            (selectSources (nameAdjust (extract_name_phrase q) (retrieveHits q env))
              (extract_name_phrase q))))
            (selectSources (nameAdjust (extract_name_phrase q) (retrieveHits q env))
              (extract_name_phrase q)))
          (multiPartHeuristic (pyLower q)))
        (buildContext (buildSrcMap (nameAdjust (extract_name_phrase q)
          (retrieveHits q env)) (selectSources (nameAdjust (extract_name_phrase q)
          (retrieveHits q env)) (extract_name_phrase q))))
        (choosePrompt q (selectSources (nameAdjust (extract_name_phrase q)
          (retrieveHits q env)) (extract_name_phrase q))
          (buildContext (buildSrcMap (nameAdjust (extract_name_phrase q)
            (retrieveHits q env)) (selectSources (nameAdjust (extract_name_phrase q)
            (retrieveHits q env)) (extract_name_phrase q))))
          (add_to_context ctx' q (buildContext (buildSrcMap
            (nameAdjust (extract_name_phrase q) (retrieveHits q env))
            (selectSources (nameAdjust (extract_name_phrase q) (retrieveHits q env))
              (extract_name_phrase q))))
            (selectSources (nameAdjust (extract_name_phrase q) (retrieveHits q env))
              (extract_name_phrase q)))
          (multiPartHeuristic (pyLower q)))
        (buildContext (buildSrcMap (nameAdjust (extract_name_phrase q)
          (retrieveHits q env)) (selectSources (nameAdjust (extract_name_phrase q)
          (retrieveHits q env)) (extract_name_phrase q))))]
      split
      · rfl
      · rfl

/-- C9: after clearing the conversation context ("new session"), asking the
same question twice against the same environment — with generation mocked to
return identical fragment sequences regardless of the prompt, per the
claim's "identical mocked retrieval and generation results" — yields
identical final answer texts, citation block included: the output depends
only on the question and the collaborator results, not on state leaked from
the first ask. -/
theorem c9_new_session_idempotent (q : Str) (env : Env)
    (hmock : ∀ p c p' c', env.gen p c = env.gen p' c') :
    (answer_question_stream q false env clear_conversation_context).out =
    (answer_question_stream q false env
      ((answer_question_stream q false env clear_conversation_context).ctx)).out := by
  rw [show clear_conversation_context = ([] : List Turn) from rfl]
  by_cases h0 : (pyStrip q).isEmpty = true
  · simp [answer_question_stream, h0]
  · by_cases h1 : is_greeting (pyStrip q) = true
    · simp [answer_question_stream, h0, h1]
    · by_cases h2 : is_help (pyStrip q) = true
      · simp [answer_question_stream, h0, h1, h2, hasRecentContext]
      · match h3 : smalltalkIntercept (pyStrip q) with
        | some r =>
          simp [answer_question_stream, h0, h1, h2, h3, hasRecentContext]
        | none =>
          simp only [answer_question_stream, h0, h1, h2, h3, hasRecentContext,
            List.isEmpty_nil, Bool.not_false, Bool.false_eq_true, if_false,
            Bool.and_eq_true, Bool.not_eq_true']
          exact mainPath_out_indep (pyStrip q) env _ _ hmock

/-- C9 witness: a concrete environment whose generator ignores its prompt
(the mocked-generation hypothesis holds by `rfl`). -/
theorem c9_witness :
    (answer_question_stream ("tell me about pneumonia treatment".toList) false c9Env
      clear_conversation_context).out =
    (answer_question_stream ("tell me about pneumonia treatment".toList) false c9Env
      ((answer_question_stream ("tell me about pneumonia treatment".toList) false c9Env
        clear_conversation_context).ctx)).out :=
  c9_new_session_idempotent ("tell me about pneumonia treatment".toList) c9Env
    (fun _ _ _ _ => rfl)
